import Mathlib

/-!
Verification of the protomanager core (schema model, example generator,
validator, line parser) against its natural-language specification.

The Python sources are shallowly embedded:

* JSON-like document values (Python `str` / `int` / `float` / `bool` /
  `list` / `dict` / `None`) become the inductive `Jval`.  Python floats are
  only ever produced as the literals `100.5` / `50.25` and are only ever
  inspected through their runtime type tag, so they are embedded as exact
  rationals.  `dict` and `OrderedDict` both embed to `Jval.obj`: the
  embedding works at the level of structured document values.
* `MessageField` / `EnumField` / the nested message-scope dictionaries /
  `ProtoFile` become `MessageField` / `EnumField` / `Scope` /
  `ScopeEntry` / `ProtoFile`.  A Python message-scope dict holds the
  reserved key `__fields__` next to the nested type names; the embedding
  keeps the two maps apart (`Scope.fields` and `Scope.nested`), relying on
  the reserved key being disjoint from declared type names.
* Python exceptions (KeyError, TypeError, ValueError, AttributeError,
  RecursionError) become `Except.error` with a string naming the
  exception; unbounded recursion is modelled with an explicit fuel
  parameter (`Nat`), exhaustion being `RecursionError`.  The recursive
  procedures are written as one fuel-indexed function per Python method,
  with the per-level loops lambda-lifted into list-recursive helpers that
  receive the next recursion level as an argument `recur`.
-/

/- ## Character and string helpers (Python `str` operations) -/

def word_char (c : Char) : Bool := c.isAlphanum || c == '_'

def digit_char (c : Char) : Bool := c.isDigit

def take_word (cs : List Char) : List Char × List Char :=
  match cs with
  | [] => ([], [])
  | c :: rest =>
    if word_char c then
      let (w, r) := take_word rest
      (c :: w, r)
    else ([], cs)

def take_digits (cs : List Char) : List Char × List Char :=
  match cs with
  | [] => ([], [])
  | c :: rest =>
    if digit_char c then
      let (d, r) := take_digits rest
      (c :: d, r)
    else ([], cs)

def drop_pre (cs pre : List Char) : Option (List Char) :=
  match pre, cs with
  | [], _ => some cs
  | _ :: _, [] => none
  | p :: ps, c :: rest => if c == p then drop_pre rest ps else none

/-- Python `s.startswith(p)`. -/
def str_starts (s p : String) : Bool := (drop_pre s.data p.data).isSome

/-- Python `s.endswith(p)`. -/
def str_ends (s p : String) : Bool := (drop_pre s.data.reverse p.data.reverse).isSome

/-- Python `c in s` for a single character. -/
def str_has_char (s : String) (c : Char) : Bool := s.data.contains c

/-- Python `s.strip()`. -/
def strip (s : String) : String :=
  String.mk (((s.data.dropWhile Char.isWhitespace).reverse.dropWhile Char.isWhitespace).reverse)

/-- Python `s.split(c, 1)` when it unpacks into two names: `none` models the
ValueError raised when the separator is absent. -/
def split_once (s : String) (c : Char) : Option (String × String) :=
  match s.data.splitOn c with
  | [] => none
  | [_] => none
  | x :: rest => some (String.mk x, String.mk (List.intercalate [c] rest))

/-- Membership in a Python list of strings (`t in TYPES`). -/
def mem_str (t : String) : List String → Bool
  | [] => false
  | x :: rest => x == t || mem_str t rest

/- ## proto_manager.py: scalar type sets and field descriptors -/

def STRING_TYPES : List String := ["string", "google.protobuf.StringValue"]

def INT_TYPES : List String :=
  ["int32", "int64", "uint32", "uint64", "sint32", "sint64",
   "fixed32", "fixed64", "sfixed32", "sfixed64",
   "google.protobuf.Int32Value", "google.protobuf.Int64Value"]

def FLOAT_TYPES : List String := ["float", "double"]

def BOOL_TYPES : List String := ["bool", "google.protobuf.BoolValue"]

def BYTES_TYPES : List String := ["bytes"]

def is_base_type (t : String) : Bool :=
  mem_str t (STRING_TYPES ++ FLOAT_TYPES ++ INT_TYPES ++ BOOL_TYPES ++ BYTES_TYPES)

/-- `field_type.startswith('map<')`, the derived `is_map` attribute. -/
def is_map_type (t : String) : Bool := str_starts t "map<"

structure MessageField where
  type : String
  is_repeated : Bool
  is_required : Bool
deriving DecidableEq, Repr

def base_type_of (t : String) : Bool := is_base_type t

def MessageField.is_base_type (f : MessageField) : Bool := base_type_of f.type

def MessageField.is_map (f : MessageField) : Bool := is_map_type f.type

structure EnumField where
  name : String
  values : List String
deriving DecidableEq, Repr

/- A Python message scope is a dict holding the ordered field map under the
reserved key `__fields__` plus the nested message/enum declarations keyed by
their own names.  `Scope.fields` is the `__fields__` entry, `Scope.nested`
holds the remaining keys. -/

mutual
inductive ScopeEntry where
  | msg (s : Scope)
  | enum (e : EnumField)
inductive Scope where
  | mk (fields : List (String × MessageField)) (nested : List (String × ScopeEntry))
end

def Scope.fields : Scope → List (String × MessageField)
  | .mk f _ => f

def Scope.nested : Scope → List (String × ScopeEntry)
  | .mk _ n => n

/-- `ProtoFile`: the ordered top-level structure plus imported packages (each
one a full `ProtoFile`), the result of parsing one schema source. -/
inductive ProtoFile where
  | mk (struct : List (String × ScopeEntry)) (imports : List (String × ProtoFile))

def ProtoFile.struct : ProtoFile → List (String × ScopeEntry)
  | .mk s _ => s

def ProtoFile.imports : ProtoFile → List (String × ProtoFile)
  | .mk _ i => i

/-- `ProtoFile.has_in_imports`: a dotted name whose package prefix is an
imported package containing the suffix as a top-level type. -/
def has_in_imports (pf : ProtoFile) (field_type : String) : Bool :=
  if !str_has_char field_type '.' then false
  else
    match split_once field_type '.' with
    | none => false
    | some pm =>
      match pf.imports.lookup pm.1 with
      | none => false
      | some p => (p.struct.lookup pm.2).isSome

/- ## Document values -/

inductive Jval where
  | str (s : String)
  | int (n : Int)
  | float (q : ℚ)
  | bool (b : Bool)
  | arr (xs : List Jval)
  | obj (fs : List (String × Jval))
  | null
deriving Repr

/-- Python `type(v).__name__` on a deserialized document value. -/
def type_name : Jval → String
  | .str _ => "str"
  | .int _ => "int"
  | .float _ => "float"
  | .bool _ => "bool"
  | .arr _ => "list"
  | .obj _ => "dict"
  | .null => "NoneType"

def Jval.isArr : Jval → Bool
  | .arr _ => true
  | _ => false

def Jval.isObj : Jval → Bool
  | .obj _ => true
  | _ => false

def Jval.elems : Jval → List Jval
  | .arr xs => xs
  | _ => []

/-- Ordered-dict assignment `d[k] = v`: overwrite in place, else append. -/
def od_insert {α : Type} (l : List (String × α)) (k : String) (v : α) :
    List (String × α) :=
  match l with
  | [] => [(k, v)]
  | (k', v') :: rest =>
    if k' == k then (k', v) :: rest else (k', v') :: od_insert rest k v

/- ## proto_json.py: the example generator -/

/-- `ProtoJson.__get_default_value_for_field`. -/
def get_default_value_for_field (f : MessageField) : Option Jval :=
  if mem_str f.type STRING_TYPES then
    some (.str (if f.is_required then "String" else "Optional string"))
  else if mem_str f.type INT_TYPES then
    some (.int (if f.is_required then 100 else 50))
  else if mem_str f.type FLOAT_TYPES then
    some (.float (if f.is_required then (201 : ℚ)/2 else (201 : ℚ)/4))
  else if mem_str f.type BOOL_TYPES then
    some (.bool f.is_required)
  else none

/-- `ProtoJson.__get_default_value_for_enum`. -/
def get_default_value_for_enum (e : EnumField) (f : MessageField) : Jval :=
  match e.values with
  | v :: _ => .str v
  | [] => .str (if f.is_required then "Enum" else "Optional enum")

/-- The generator's local lookup (proto_json.py lines 59-62): the nested
scope is consulted first, then the top level. -/
def local_lookup (sc : Scope) (pf : ProtoFile) (t : String) : Option ScopeEntry :=
  match sc.nested.lookup t with
  | some e => some e
  | none => pf.struct.lookup t

/-- The validator's local lookup (proto_validator.py lines 174-178): the
nested scope is assigned first and the top level then overwrites it. -/
def scoped_lookup (pf : ProtoFile) (sc : Scope) (t : String) : Option ScopeEntry :=
  match pf.struct.lookup t with
  | some e => some e
  | none => sc.nested.lookup t

/-- The body of `ProtoJson.__get_object` for one field, before the
repeated-wrapping step; `recur` is the next recursion level of
`__get_object`. -/
def gen_field_value
    (recur : ProtoFile → Scope → Except String (List (String × Jval)))
    (pf : ProtoFile) (sc : Scope) (f : MessageField) : Except String Jval :=
  match get_default_value_for_field f with
  | some v => .ok v
  | none =>
    if has_in_imports pf f.type then
      match split_once f.type '.' with
      | none => .error "ValueError"
      | some pm =>
        match pf.imports.lookup pm.1 with
        | none => .error "KeyError: imports[package]"
        | some p =>
          match p.struct.lookup pm.2 with
          | none => .error "KeyError: structure[name]"
          | some entry =>
            match entry with
            | .enum _ => .error "TypeError"
            | .msg s' => Jval.obj <$> recur p s'
    else
      match local_lookup sc pf f.type with
      | some entry =>
        match entry with
        | .msg s' => Jval.obj <$> recur pf s'
        | .enum e => .ok (get_default_value_for_enum e f)
      | none => .ok (.obj [])

/-- One field of `ProtoJson.__get_object`, including the single-element
wrapping of repeated fields. -/
def gen_field
    (recur : ProtoFile → Scope → Except String (List (String × Jval)))
    (pf : ProtoFile) (sc : Scope) (f : MessageField) : Except String Jval := do
  let v ← gen_field_value recur pf sc f
  .ok (if f.is_repeated then .arr [v] else v)

/-- The field loop of `ProtoJson.__get_object`, building the ordered result
dict. -/
def get_object_loop
    (recur : ProtoFile → Scope → Except String (List (String × Jval)))
    (pf : ProtoFile) (sc : Scope) :
    List (String × MessageField) → List (String × Jval) →
    Except String (List (String × Jval))
  | [], acc => .ok acc
  | (k, f) :: rest, acc => do
    let v ← gen_field recur pf sc f
    get_object_loop recur pf sc rest (od_insert acc k v)

/-- `ProtoJson.__get_object`, fuel-indexed. -/
def get_object : Nat → ProtoFile → Scope → Except String (List (String × Jval))
  | 0, _, _ => .error "RecursionError"
  | n + 1, pf, sc => get_object_loop (get_object n) pf sc sc.fields []

/-- `ProtoJson.as_object`. -/
def as_object (fuel : Nat) (pf : ProtoFile) (root : String) : Except String Jval :=
  match pf.struct.lookup root with
  | none => .error "KeyError: structure[name]"
  | some (.enum _) => .error "TypeError"
  | some (.msg s) => Jval.obj <$> get_object fuel pf s

/- ## proto_validator.py -/

/-- One discrepancy message body; the Python code builds these as formatted
strings, the embedding keeps the format tag plus the interpolated data. -/
inductive Msg where
  | wrong_type (expected got : String) (v : Jval)
  | not_valid_map (ptype got : String) (v : Jval)
  | wrong_map_value (key mvt ptype got : String) (v : Jval)
  | unknown_enum (v : Jval) (ename : String)
  | excess (fname : String)
  | required_missing (fname ftype : String)
  | expected_structure (scope_name got : String) (v : Jval)
  | expected_array (ftype got : String)
deriving Repr

/-- A path-tagged error as appended by `ProtoValidator.__add_errors`:
`"path: message"`. -/
abbrev VErr := String × Msg

/-- `ProtoValidator.__add_errors` on a (possibly multiple) result: `None`
entries are skipped, the rest are path-tagged. -/
def add_errors (path : String) (l : List (Option Msg)) : List VErr :=
  l.filterMap (fun o => o.map (fun m => (path, m)))

def base_assoc : List (List String × List String) :=
  [(STRING_TYPES, ["str", "unicode"]),
   (FLOAT_TYPES, ["float"]),
   (INT_TYPES, ["int", "long"]),
   (BOOL_TYPES, ["bool"])]

def base_assoc_check (t : String) (v : Jval) :
    List (List String × List String) → Option Msg
  | [] => none
  | (pts, pys) :: rest =>
    if mem_str t pts && !(mem_str (type_name v) pys) then
      some (.wrong_type t (type_name v) v)
    else base_assoc_check t v rest

/-- `ProtoValidator.__validate_base_type`. -/
def validate_base_type (t : String) (v : Jval) : Option Msg :=
  base_assoc_check t v base_assoc

/-- `ProtoValidator.__validate_multiply_base_types`. -/
def validate_multiply_base_types (t : String) (vs : List Jval) : List (Option Msg) :=
  vs.map (validate_base_type t)

def enum_has (e : EnumField) (v : Jval) : Bool :=
  match v with
  | .str s => mem_str s e.values
  | _ => false

/-- `ProtoValidator.__validate_enum_type`. -/
def validate_enum_type (e : EnumField) (v : Jval) : Option Msg :=
  if enum_has e v then none else some (.unknown_enum v e.name)

/-- The regex `map<\w+, ?(?P<value>[\w.]+)>` applied with `re.match`:
extracts the map's declared value type, `none` when the pattern fails (the
Python code would then raise AttributeError on `.groupdict()`). -/
def map_value_type (t : String) : Option String :=
  match t.data with
  | 'm' :: 'a' :: 'p' :: '<' :: rest =>
    let (k, r1) := take_word rest
    if k.isEmpty then none
    else
      match r1 with
      | ',' :: r2 =>
        let r3 := match r2 with
          | ' ' :: r => r
          | _ => r2
        let (v, r4) := (r3.span (fun c => word_char c || c == '.'))
        if v.isEmpty then none
        else
          match r4 with
          | '>' :: _ => some (String.mk v)
          | _ => none
      | _ => none
  | _ => none

/-- The key loop of `ProtoValidator.__validate_map_type`; returns the errors
the nested `__validate_structure` calls append to `self.__errors`, the map
validator's own (not yet path-tagged) error list, and the mutated entries. -/
def validate_map_loop
    (recur : ProtoFile → ScopeEntry → Jval → String → String →
      Except String (List VErr × Jval))
    (pf : ProtoFile) (ptype : String) (path : String) :
    List (String × Jval) →
    Except String (List VErr × List Msg × List (String × Jval))
  | [] => .ok ([], [], [])
  | (key, v) :: rest =>
    match map_value_type ptype with
    | none => .error "AttributeError"
    | some mvt =>
      if is_base_type mvt then
        let own : List Msg :=
          match validate_base_type mvt v with
          | some _ => [.wrong_map_value key mvt ptype (type_name v) v]
          | none => []
        (do
          let t ← validate_map_loop recur pf ptype path rest
          .ok (t.1, own ++ t.2.1, (key, v) :: t.2.2))
      else
        match split_once mvt '.' with
        | none => .error "ValueError"
        | some pm =>
          match pf.imports.lookup pm.1 with
          | none => .error "KeyError: imports[package]"
          | some p =>
            match p.struct.lookup pm.2 with
            | none => .error "KeyError: structure[name]"
            | some se' => do
              let r ← recur p se' v (path ++ " > " ++ key) mvt
              let t ← validate_map_loop recur pf ptype path rest
              .ok (r.1 ++ t.1, t.2.1, (key, r.2) :: t.2.2)

/-- `ProtoValidator.__validate_map_type`. -/
def validate_map_type
    (recur : ProtoFile → ScopeEntry → Jval → String → String →
      Except String (List VErr × Jval))
    (pf : ProtoFile) (ptype : String) (v : Jval) (path : String) :
    Except String (List VErr × List Msg × Jval) :=
  match v with
  | .obj entries =>
    (validate_map_loop recur pf ptype path entries).map
      (fun t => (t.1, t.2.1, Jval.obj t.2.2))
  | _ => .ok ([], [.not_valid_map ptype (type_name v) v], v)

/-- `ProtoValidator.__validate_and_del_excess`: the excess-field warnings and
the document restricted to declared field names. -/
def validate_and_del_excess (fields : List (String × MessageField))
    (entries : List (String × Jval)) : List Msg × List (String × Jval) :=
  (entries.filterMap (fun kv =>
      if (fields.lookup kv.1).isSome then none else some (.excess kv.1)),
   entries.filter (fun kv => (fields.lookup kv.1).isSome))

/-- `ProtoValidator.__validate_required`. -/
def validate_required (fields : List (String × MessageField))
    (entries : List (String × Jval)) : List Msg :=
  fields.filterMap (fun kf =>
    if kf.2.is_required && (entries.lookup kf.1).isNone then
      some (.required_missing kf.1 kf.2.type)
    else none)

/-- `ProtoValidator.__validate_multiply_structures`. -/
def validate_multiply_structures
    (recur : ProtoFile → ScopeEntry → Jval → String → String →
      Except String (List VErr × Jval))
    (pf : ProtoFile) (se : ScopeEntry) (path scope_name : String) :
    List Jval → Except String (List VErr × List Jval)
  | [] => .ok ([], [])
  | x :: xs => do
    let r ← recur pf se x path scope_name
    let t ← validate_multiply_structures recur pf se path scope_name xs
    .ok (r.1 ++ t.1, r.2 :: t.2)

/-- The per-field body of `ProtoValidator.__validate_structure`'s main loop
(lines after the `proto_fields[test_key]` lookup). -/
def validate_field
    (recur : ProtoFile → ScopeEntry → Jval → String → String →
      Except String (List VErr × Jval))
    (pf : ProtoFile) (sc : Scope) (path k : String) (f : MessageField)
    (v : Jval) : Except String (List VErr × Jval) :=
  let new_path := path ++ " > " ++ k
  if f.is_repeated && !v.isArr then
    .ok ([(new_path, .expected_array f.type (type_name v))], v)
  else if f.is_base_type then
    if f.is_repeated then
      .ok (add_errors new_path (validate_multiply_base_types f.type v.elems), v)
    else
      .ok (add_errors new_path [validate_base_type f.type v], v)
  else if f.is_map then
    (validate_map_type recur pf f.type v new_path).map
      (fun t => (t.1 ++ t.2.1.map (fun m => (new_path, m)), t.2.2))
  else
    match scoped_lookup pf sc f.type with
    | some entry =>
      match entry with
      | .enum e =>
        if f.is_repeated then
          .ok (add_errors new_path (v.elems.map (validate_enum_type e)), v)
        else
          .ok (add_errors new_path [validate_enum_type e v], v)
      | .msg s' =>
        if f.is_repeated then
          (validate_multiply_structures recur pf (.msg s') new_path f.type v.elems).map
            (fun t => (t.1, Jval.arr t.2))
        else
          recur pf (.msg s') v new_path f.type
    | none =>
      if has_in_imports pf f.type then
        match split_once f.type '.' with
        | none => .error "ValueError"
        | some pm =>
          match pf.imports.lookup pm.1 with
          | none => .error "KeyError: imports[package]"
          | some p =>
            match p.struct.lookup pm.2 with
            | none => .error "KeyError: structure[name]"
            | some se' =>
              if f.is_repeated then
                (validate_multiply_structures recur p se' new_path f.type v.elems).map
                  (fun t => (t.1, Jval.arr t.2))
              else
                recur p se' v new_path f.type
      else
        -- the "[Something goes wrong]" branch prints to the console and
        -- continues; nothing reaches the error list
        .ok ([], v)

/-- The main loop of `ProtoValidator.__validate_structure` over the (already
stripped) document entries. -/
def validate_fields
    (recur : ProtoFile → ScopeEntry → Jval → String → String →
      Except String (List VErr × Jval))
    (pf : ProtoFile) (sc : Scope) (path : String) :
    List (String × Jval) → Except String (List VErr × List (String × Jval))
  | [] => .ok ([], [])
  | (k, v) :: rest =>
    match sc.fields.lookup k with
    | none => .error "KeyError: proto_fields[test_key]"
    | some f => do
      let r ← validate_field recur pf sc path k f v
      let t ← validate_fields recur pf sc path rest
      .ok (r.1 ++ t.1, (k, r.2) :: t.2)

/-- `ProtoValidator.__validate_structure`, fuel-indexed; returns the errors
appended during the call plus the (in-place mutated) document value. -/
def validate_structure :
    Nat → ProtoFile → ScopeEntry → Jval → String → String →
    Except String (List VErr × Jval)
  | 0, _, _, _, _, _ => .error "RecursionError"
  | n + 1, pf, se, data, path, name =>
    match data with
    | .obj entries =>
      match se with
      | .enum _ => .error "TypeError"
      | .msg s =>
        let de := validate_and_del_excess s.fields entries
        let req_errs := validate_required s.fields de.2
        (do
          let r ← validate_fields (validate_structure n) pf s path de.2
          .ok (de.1.map (fun m => (path, m)) ++
               req_errs.map (fun m => (path, m)) ++ r.1,
               Jval.obj r.2))
    | _ => .ok ([(path, .expected_structure name (type_name data) data)], data)

/-- `ProtoValidator.validate_json`: the has-errors flag, the error list, and
the (mutated) input document. -/
def validate_json (fuel : Nat) (pf : ProtoFile) (root : String) (data : Jval) :
    Except String (Bool × List VErr × Jval) :=
  match pf.struct.lookup root with
  | none => .error "KeyError: structure[name]"
  | some se =>
    (validate_structure fuel pf se data root root).map
      (fun r => (!r.1.isEmpty, r.1, r.2))

/- ## Shared fixtures -/

def pf_empty : ProtoFile := .mk [] []

def scope_empty : Scope := .mk [] []

/-- Schema `message M { string name = 1; // required\n repeated int32 tags = 2; }`. -/
def pf_c4 : ProtoFile :=
  .mk [("M", .msg (.mk
        [("name", ⟨"string", false, true⟩), ("tags", ⟨"int32", true, false⟩)]
        []))]
      []

/- ## C4: the scenario document -/

/-- C4 counterexample: generating `M` does not yield
`\x7bname: "String", tags: [100]\x7d`; `tags` is not marked required, so its
example element is 50, not 100. -/
theorem c4_counterexample :
    as_object 2 pf_c4 "M" ≠
      .ok (.obj [("name", .str "String"), ("tags", .arr [.int 100])]) := by
  intro h
  have h' : Except.ok (ε := String)
      (Jval.obj [("name", .str "String"), ("tags", .arr [.int 50])]) =
      .ok (.obj [("name", .str "String"), ("tags", .arr [.int 100])]) := by
    exact h
  simp at h'

/-- C4 amended: generating an example for root type `M` of the scenario
schema yields exactly `\x7bname: "String", tags: [50]\x7d` (the integer example
is 50 because `tags` is not marked required). -/
theorem c4_generated_document :
    as_object 2 pf_c4 "M" =
      .ok (.obj [("name", .str "String"), ("tags", .arr [.int 50])]) := rfl

/- ## C6: repeated fields -/

/-- C6: the Example Generator wraps every repeated field's value in a
sequence of exactly one element, and the Validator reports an
"expected array" discrepancy for a repeated field whose document value is
not an array, leaving that field's value untouched and adding no other
error for it. -/
theorem c6_repeated_fields :
    (∀ recur pf sc f w, f.is_repeated = true →
        gen_field recur pf sc f = .ok w →
        ∃ v, w = .arr [v] ∧ gen_field_value recur pf sc f = .ok v) ∧
    (∀ recur pf sc path k f v, f.is_repeated = true → v.isArr = false →
        validate_field recur pf sc path k f v =
          .ok ([(path ++ " > " ++ k, .expected_array f.type (type_name v))], v)) := by
  constructor
  · intro recur pf sc f w hrep hok
    unfold gen_field at hok
    cases hv : gen_field_value recur pf sc f with
    | error e => rw [hv] at hok; exact absurd hok (by simp [Bind.bind, Except.bind])
    | ok v =>
      rw [hv] at hok
      simp [Bind.bind, Except.bind, hrep] at hok
      exact ⟨v, hok.symm, rfl⟩
  · intro recur pf sc path k f v hrep harr
    unfold validate_field
    simp [hrep, harr]

/-- C6 witness: a concrete repeated `int32` field generates `[50]`, and
validating it against the non-array value `7` reports the
expected-array discrepancy. -/
theorem c6_repeated_fields_witness :
    (∃ v, (Jval.arr [.int 50]) = Jval.arr [v] ∧
       gen_field_value (get_object 0) pf_empty scope_empty ⟨"int32", true, false⟩ = .ok v) ∧
    validate_field (validate_structure 0) pf_empty scope_empty "M" "tags"
        ⟨"int32", true, false⟩ (.int 7) =
      .ok ([("M > tags", .expected_array "int32" "int")], .int 7) :=
  ⟨c6_repeated_fields.1 (get_object 0) pf_empty scope_empty ⟨"int32", true, false⟩
      (Jval.arr [.int 50]) rfl rfl,
   c6_repeated_fields.2 (validate_structure 0) pf_empty scope_empty "M" "tags"
      ⟨"int32", true, false⟩ (.int 7) rfl rfl⟩

/- ## C8: the has-errors flag -/

/-- C8: whenever `validate_json` returns, the boolean has-errors flag is
true exactly when the returned diagnostic list is non-empty. -/
theorem c8_flag_iff_errors (fuel : Nat) (pf : ProtoFile) (root : String)
    (data : Jval) (flag : Bool) (es : List VErr) (d : Jval)
    (h : validate_json fuel pf root data = .ok (flag, es, d)) :
    flag = true ↔ es ≠ [] := by
  unfold validate_json at h
  split at h
  · exact absurd h (by simp)
  · rename_i se hl
    cases hv : validate_structure fuel pf se data root root with
    | error e => rw [hv] at h; exact absurd h (by simp [Except.map])
    | ok r =>
      rw [hv] at h
      obtain ⟨es0, d0⟩ := r
      simp [Except.map] at h
      obtain ⟨hf, hes, _⟩ := h
      subst hes
      cases es0 with
      | nil => simp at hf; simp [← hf]
      | cons a l => simp at hf; simp [← hf]

/-- C8 witness: validating the empty document against the scenario schema
returns the flag `true` together with the non-empty error list. -/
theorem c8_flag_iff_errors_witness :
    (true = true ↔ ([(("M" : String), Msg.required_missing "name" "string")] : List VErr) ≠ []) :=
  c8_flag_iff_errors 2 pf_c4 "M" (.obj []) true
    [("M", .required_missing "name" "string")] (.obj []) rfl

/- ## C2: the type-resolution contract in both consumers -/

/-- The classification a consumer assigns to a field's declared type. -/
inductive Resolution where
  | scalar
  | map_kind
  | enum_local (e : EnumField)
  | msg_local (s : Scope)
  | imported (p : ProtoFile) (entry : ScopeEntry)
  | unresolved

/-- The branch order of `ProtoJson.__get_object` for one field: scalar
default, then import lookup, then local lookup with the nested scope
consulted before the top level. -/
def gen_resolve (pf : ProtoFile) (sc : Scope) (f : MessageField) : Resolution :=
  if (get_default_value_for_field f).isSome then .scalar
  else if has_in_imports pf f.type then
    match split_once f.type '.' with
    | none => .unresolved
    | some pm =>
      match pf.imports.lookup pm.1 with
      | none => .unresolved
      | some p =>
        match p.struct.lookup pm.2 with
        | none => .unresolved
        | some e => .imported p e
  else
    match local_lookup sc pf f.type with
    | some entry =>
      match entry with
      | .msg s' => .msg_local s'
      | .enum e => .enum_local e
    | none => .unresolved

/-- The branch order of `ProtoValidator.__validate_structure` for one field:
scalar set (bytes included), then map syntax, then local lookup with the
top level overriding the nested scope, then import lookup. -/
def val_resolve (pf : ProtoFile) (sc : Scope) (f : MessageField) : Resolution :=
  if f.is_base_type then .scalar
  else if f.is_map then .map_kind
  else
    match scoped_lookup pf sc f.type with
    | some entry =>
      match entry with
      | .enum e => .enum_local e
      | .msg s' => .msg_local s'
    | none =>
      if has_in_imports pf f.type then
        match split_once f.type '.' with
        | none => .unresolved
        | some pm =>
          match pf.imports.lookup pm.1 with
          | none => .unresolved
          | some p =>
            match p.struct.lookup pm.2 with
            | none => .unresolved
            | some e => .imported p e
      else .unresolved

lemma mem_str_append (t : String) (a b : List String) :
    mem_str t (a ++ b) = (mem_str t a || mem_str t b) := by
  induction a with
  | nil => simp [mem_str]
  | cons x rest ih => simp [mem_str, ih, Bool.or_assoc]

lemma default_some_iff (f : MessageField) :
    (get_default_value_for_field f).isSome =
      (mem_str f.type STRING_TYPES || mem_str f.type INT_TYPES ||
       mem_str f.type FLOAT_TYPES || mem_str f.type BOOL_TYPES) := by
  unfold get_default_value_for_field
  cases hS : mem_str f.type STRING_TYPES <;>
  cases hI : mem_str f.type INT_TYPES <;>
  cases hF : mem_str f.type FLOAT_TYPES <;>
  cases hB : mem_str f.type BOOL_TYPES <;>
  simp [hS, hI, hF, hB]

lemma base_type_split (t : String) :
    is_base_type t =
      (mem_str t STRING_TYPES || mem_str t FLOAT_TYPES || mem_str t INT_TYPES ||
       mem_str t BOOL_TYPES || mem_str t BYTES_TYPES) := by
  unfold is_base_type
  rw [mem_str_append, mem_str_append, mem_str_append, mem_str_append]

/-- A name declared both as a nested entry of the scope and at the top
level: `X` is a nested enum of `M` and also a top-level message. -/
def sc_c2 : Scope := .mk [("x", ⟨"X", false, false⟩)] [("X", .enum ⟨"X", ["A"]⟩)]

def pf_c2 : ProtoFile :=
  .mk [("M", .msg sc_c2), ("X", .msg (.mk [("b", ⟨"int32", false, true⟩)] []))] []

/-- C2 counterexample: for the shadowed name `X` the generator resolves to
the nested enum while the validator resolves to the top-level message — the
two consumers do not resolve to the same target. -/
theorem c2_counterexample :
    gen_resolve pf_c2 sc_c2 ⟨"X", false, false⟩ ≠
      val_resolve pf_c2 sc_c2 ⟨"X", false, false⟩ := by
  have h1 : gen_resolve pf_c2 sc_c2 ⟨"X", false, false⟩ =
      .enum_local ⟨"X", ["A"]⟩ := rfl
  have h2 : val_resolve pf_c2 sc_c2 ⟨"X", false, false⟩ =
      .msg_local (.mk [("b", ⟨"int32", false, true⟩)] []) := rfl
  rw [h1, h2]
  intro h
  exact Resolution.noConfusion h

/-- C2 amended: the Example Generator and the Validator assign the same
classification to a declared field type provided the type is not map
syntax, is not `bytes` (which only the Validator's scalar set contains), is
not declared both as a nested entry of the current scope and as a top-level
entry (the generator prefers the nested entry, the validator the top-level
one), and, when it is an import reference, is not also locally declared
(the generator attempts import lookup before local lookup). -/
theorem c2_resolver_agreement (pf : ProtoFile) (sc : Scope) (f : MessageField)
    (hmap : is_map_type f.type = false)
    (hbytes : mem_str f.type BYTES_TYPES = false)
    (hshadow : ¬((sc.nested.lookup f.type).isSome ∧ (pf.struct.lookup f.type).isSome))
    (himp : has_in_imports pf f.type = true →
        sc.nested.lookup f.type = none ∧ pf.struct.lookup f.type = none) :
    gen_resolve pf sc f = val_resolve pf sc f := by
  have hbase : f.is_base_type = (get_default_value_for_field f).isSome := by
    rw [default_some_iff]
    show base_type_of f.type = _
    unfold base_type_of
    rw [base_type_split, hbytes]
    cases hS : mem_str f.type STRING_TYPES <;>
    cases hI : mem_str f.type INT_TYPES <;>
    cases hF : mem_str f.type FLOAT_TYPES <;>
    cases hB : mem_str f.type BOOL_TYPES <;> simp [hS, hI, hF, hB]
  by_cases hdef : (get_default_value_for_field f).isSome = true
  · unfold gen_resolve val_resolve
    rw [hdef, hbase, hdef]
    simp
  · have hdef' : (get_default_value_for_field f).isSome = false := by
      cases h : (get_default_value_for_field f).isSome
      · rfl
      · exact absurd h hdef
    have hmapf : f.is_map = false := hmap
    unfold gen_resolve val_resolve local_lookup scoped_lookup
    rw [hdef', hbase, hdef', hmapf]
    simp only [Bool.false_eq_true, if_false]
    by_cases himp' : has_in_imports pf f.type = true
    · obtain ⟨hn, ht⟩ := himp himp'
      rw [himp', hn, ht]
      try simp
    · have himp'' : has_in_imports pf f.type = false := by
        cases h : has_in_imports pf f.type
        · rfl
        · exact absurd h himp'
      rw [himp'']
      simp only [Bool.false_eq_true, if_false]
      cases hn : sc.nested.lookup f.type with
      | none =>
        cases ht : pf.struct.lookup f.type with
        | none => simp
        | some e => cases e <;> simp
      | some e =>
        cases ht : pf.struct.lookup f.type with
        | none => cases e <;> simp
        | some e' => exact absurd ⟨by rw [hn]; rfl, by rw [ht]; rfl⟩ hshadow

/-- C2 witness: on the scalar type `string` with empty scope and model both
resolvers agree. -/
theorem c2_resolver_agreement_witness :
    gen_resolve pf_empty scope_empty ⟨"string", false, true⟩ =
      val_resolve pf_empty scope_empty ⟨"string", false, true⟩ :=
  c2_resolver_agreement pf_empty scope_empty ⟨"string", false, true⟩ rfl rfl
    (by intro h; exact absurd h.1 (by simp [scope_empty, Scope.nested, List.lookup]))
    (by intro h; exact absurd h (by simp [has_in_imports, pf_empty, str_has_char]))

/- ## C3: map-typed fields -/

/-- A message with a map field whose declared value type is a local
(same-file) message. -/
def pf_c3 : ProtoFile :=
  .mk [("M", .msg (.mk [("m", ⟨"map<string, Local>", false, false⟩)] [])),
       ("Local", .msg (.mk [("a", ⟨"string", false, false⟩)] []))] []

/-- C3 counterexample: validating a map entry whose declared value type is
the local message `Local` aborts the whole validate call: the value type
carries no package prefix, so `get_import_package`'s `split('.', 1)`
unpacking raises ValueError. -/
theorem c3_counterexample :
    validate_json 3 pf_c3 "M" (.obj [("m", .obj [("k", .obj [])])]) =
      .error "ValueError" := rfl

/-- C3 amended: for a map-typed field the Validator requires a structure
value (anything else yields exactly the not-a-valid-map discrepancy and
returns), and when the map's declared value type is scalar every key is
scalar-validated without aborting and without mutating the entries; a
non-scalar value type is resolved only through the import tables, so a
local message value type aborts the whole validate call (see the
counterexample). -/
theorem c3_map_validation :
    (∀ recur pf ptype v path, v.isObj = false →
        validate_map_type recur pf ptype v path =
          .ok ([], [.not_valid_map ptype (type_name v) v], v)) ∧
    (∀ (recur : ProtoFile → ScopeEntry → Jval → String → String →
          Except String (List VErr × Jval))
        pf ptype path entries mvt, map_value_type ptype = some mvt →
        is_base_type mvt = true →
        ∃ own, validate_map_loop recur pf ptype path entries =
          .ok ([], own, entries)) := by
  constructor
  · intro recur pf ptype v path h
    cases v <;> first
      | rfl
      | exact absurd h (by simp [Jval.isObj])
  · intro recur pf ptype path entries mvt hmvt hbase
    induction entries with
    | nil => exact ⟨[], rfl⟩
    | cons kv rest ih =>
      obtain ⟨k, v⟩ := kv
      obtain ⟨own, hrest⟩ := ih
      refine ⟨(match validate_base_type mvt v with
               | some _ => [Msg.wrong_map_value k mvt ptype (type_name v) v]
               | none => []) ++ own, ?_⟩
      unfold validate_map_loop
      simp only [hmvt, hbase, eq_self_iff_true, if_true, Bind.bind, Except.bind, hrest]

/-- C3 witness: a non-structure map value yields exactly the
not-a-valid-map discrepancy, and a `map<string, int32>` value with one key
is scalar-validated without aborting. -/
theorem c3_map_validation_witness :
    validate_map_type (validate_structure 0) pf_empty "map<string, int32>"
        (.int 3) "p" =
      .ok ([], [.not_valid_map "map<string, int32>" "int" (.int 3)], .int 3) ∧
    ∃ own, validate_map_loop (validate_structure 0) pf_empty
        "map<string, int32>" "p" [("k", .str "x")] =
      .ok ([], own, [("k", .str "x")]) :=
  ⟨c3_map_validation.1 (validate_structure 0) pf_empty "map<string, int32>"
      (.int 3) "p" rfl,
   c3_map_validation.2 (validate_structure 0) pf_empty "map<string, int32>"
      "p" [("k", .str "x")] "int32" rfl rfl⟩

/- ## C10: the field-descriptor lookup in the main loop -/

lemma bind_ne_error {α β : Type} (x : Except String α) (f : α → Except String β)
    (s : String) (hx : x ≠ .error s) (hf : ∀ a, f a ≠ .error s) :
    (x >>= f) ≠ .error s := by
  cases x with
  | error e => simpa [Bind.bind, Except.bind] using hx
  | ok a => simpa [Bind.bind, Except.bind] using hf a

lemma map_ne_error {α β : Type} (g : α → β) (x : Except String α) (s : String)
    (hx : x ≠ .error s) : x.map g ≠ .error s := by
  cases x with
  | error e => simpa [Except.map] using hx
  | ok a => simp [Except.map]

lemma del_excess_keys (fields : List (String × MessageField))
    (entries : List (String × Jval)) :
    ∀ kv ∈ (validate_and_del_excess fields entries).2,
      (fields.lookup kv.1).isSome := by
  intro kv hkv
  unfold validate_and_del_excess at hkv
  simp only [List.mem_filter] at hkv
  exact hkv.2

def ke_field : String := "KeyError: proto_fields[test_key]"

lemma validate_map_loop_ne_ke
    (recur : ProtoFile → ScopeEntry → Jval → String → String →
      Except String (List VErr × Jval))
    (hrec : ∀ pf se v p nm, recur pf se v p nm ≠ .error ke_field)
    (pf : ProtoFile) (ptype path : String) (entries : List (String × Jval)) :
    validate_map_loop recur pf ptype path entries ≠ .error ke_field := by
  induction entries with
  | nil => simp [validate_map_loop]
  | cons kv rest ih =>
    obtain ⟨k, v⟩ := kv
    unfold validate_map_loop
    split
    · simp [ke_field]
    · split
      · exact bind_ne_error _ _ _ ih (by intro a; obtain ⟨x, y, z⟩ := a; simp)
      · split
        · simp [ke_field]
        · split
          · simp [ke_field]
          · split
            · simp [ke_field]
            · refine bind_ne_error _ _ _ (hrec _ _ _ _ _) ?_
              intro a
              obtain ⟨errs, v'⟩ := a
              exact bind_ne_error _ _ _ ih
                (by intro b; obtain ⟨x, y, z⟩ := b; simp)

lemma validate_multiply_ne_ke
    (recur : ProtoFile → ScopeEntry → Jval → String → String →
      Except String (List VErr × Jval))
    (hrec : ∀ pf se v p nm, recur pf se v p nm ≠ .error ke_field)
    (pf : ProtoFile) (se : ScopeEntry) (path nm : String) (xs : List Jval) :
    validate_multiply_structures recur pf se path nm xs ≠ .error ke_field := by
  induction xs with
  | nil => simp [validate_multiply_structures]
  | cons x rest ih =>
    unfold validate_multiply_structures
    refine bind_ne_error _ _ _ (hrec _ _ _ _ _) ?_
    intro a
    obtain ⟨e1, x'⟩ := a
    exact bind_ne_error _ _ _ ih (by intro b; obtain ⟨e2, xs'⟩ := b; simp)

lemma validate_field_ne_ke
    (recur : ProtoFile → ScopeEntry → Jval → String → String →
      Except String (List VErr × Jval))
    (hrec : ∀ pf se v p nm, recur pf se v p nm ≠ .error ke_field)
    (pf : ProtoFile) (sc : Scope) (path k : String) (f : MessageField)
    (v : Jval) : validate_field recur pf sc path k f v ≠ .error ke_field := by
  unfold validate_field
  split
  · simp
  split
  · split <;> simp
  split
  · refine map_ne_error _ _ _ ?_
    unfold validate_map_type
    split
    · exact map_ne_error _ _ _ (validate_map_loop_ne_ke recur hrec _ _ _ _)
    · simp
  split
  · split
    · split <;> simp
    · split
      · exact map_ne_error _ _ _ (validate_multiply_ne_ke recur hrec _ _ _ _ _)
      · exact hrec _ _ _ _ _
  · split
    · split
      · simp [ke_field]
      split
      · simp [ke_field]
      split
      · simp [ke_field]
      split
      · exact map_ne_error _ _ _ (validate_multiply_ne_ke recur hrec _ _ _ _ _)
      · exact hrec _ _ _ _ _
    · simp

lemma validate_fields_ne_ke
    (recur : ProtoFile → ScopeEntry → Jval → String → String →
      Except String (List VErr × Jval))
    (hrec : ∀ pf se v p nm, recur pf se v p nm ≠ .error ke_field)
    (pf : ProtoFile) (sc : Scope) (path : String) :
    ∀ entries : List (String × Jval),
      (∀ kv ∈ entries, (sc.fields.lookup kv.1).isSome) →
      validate_fields recur pf sc path entries ≠ .error ke_field := by
  intro entries
  induction entries with
  | nil => intro _; simp [validate_fields]
  | cons kv rest ih =>
    intro hall
    obtain ⟨k, v⟩ := kv
    unfold validate_fields
    have hk : (sc.fields.lookup k).isSome := hall (k, v) (by simp)
    cases hl : sc.fields.lookup k with
    | none => rw [hl] at hk; simp at hk
    | some f =>
      simp only [hl]
      refine bind_ne_error _ _ _ (validate_field_ne_ke recur hrec pf sc path k f v) ?_
      intro a
      refine bind_ne_error _ _ _ (ih ?_) ?_
      · intro kv hkv; exact hall kv (by simp [hkv])
      · intro b; simp

/-- C10: the per-field loop of the Validator only sees keys that survived
excess-field stripping, all of which are declared in the scope's field
mapping, so the `proto_fields[test_key]` lookup never fails: no run of
`validate_structure`, at any fuel, on any model, scope and document,
produces the KeyError modelling an absent field descriptor. -/
theorem c10_field_descriptor_lookup_total :
    ∀ (fuel : Nat) (pf : ProtoFile) (se : ScopeEntry) (data : Jval)
      (path name : String),
      validate_structure fuel pf se data path name ≠ .error ke_field := by
  intro fuel
  induction fuel with
  | zero => intro pf se data path name; simp [validate_structure, ke_field]
  | succ n ih =>
    intro pf se data path name
    unfold validate_structure
    cases data with
    | obj entries =>
      cases se with
      | enum e => simp [ke_field]
      | msg s =>
        simp only []
        refine bind_ne_error _ _ _ ?_ ?_
        · exact validate_fields_ne_ke (validate_structure n) ih pf s path
            (validate_and_del_excess s.fields entries).2
            (del_excess_keys s.fields entries)
        · intro a; simp
    | str s => simp
    | int n' => simp
    | float q => simp
    | bool b => simp
    | arr xs => simp
    | null => simp

/- ## C9: validation only deletes excess keys -/

mutual
inductive Strips : Jval → Jval → Prop where
  | refl (v : Jval) : Strips v v
  | arr {xs ys : List Jval} : StripsList xs ys → Strips (.arr xs) (.arr ys)
  | obj {fs gs : List (String × Jval)} : StripsFields fs gs → Strips (.obj fs) (.obj gs)
inductive StripsList : List Jval → List Jval → Prop where
  | nil : StripsList [] []
  | cons {x y : Jval} {xs ys : List Jval} :
      Strips x y → StripsList xs ys → StripsList (x :: xs) (y :: ys)
inductive StripsFields : List (String × Jval) → List (String × Jval) → Prop where
  | nil : StripsFields [] []
  | drop {k : String} {v : Jval} {fs gs : List (String × Jval)} :
      StripsFields fs gs → StripsFields ((k, v) :: fs) gs
  | keep {k : String} {v w : Jval} {fs gs : List (String × Jval)} :
      Strips v w → StripsFields fs gs → StripsFields ((k, v) :: fs) ((k, w) :: gs)
end

lemma strips_fields_of_filter (p : String × Jval → Bool) :
    ∀ (fs : List (String × Jval)) {gs : List (String × Jval)},
      StripsFields (fs.filter p) gs → StripsFields fs gs := by
  intro fs
  induction fs with
  | nil => intro gs h; simpa using h
  | cons kv rest ih =>
    intro gs h
    obtain ⟨k, v⟩ := kv
    by_cases hp : p (k, v) = true
    · rw [List.filter_cons_of_pos hp] at h
      cases h with
      | drop h' => exact .drop (ih h')
      | keep hs h' => exact .keep hs (ih h')
    · rw [List.filter_cons_of_neg (by simpa using hp)] at h
      exact .drop (ih h)

/-- The recursion level strips its document argument. -/
def RecurStrips
    (recur : ProtoFile → ScopeEntry → Jval → String → String →
      Except String (List VErr × Jval)) : Prop :=
  ∀ pf se v p nm r, recur pf se v p nm = .ok r → Strips v r.2

lemma ok_of_bind {α β : Type} {x : Except String α} {f : α → Except String β}
    {b : β} (h : (x >>= f) = .ok b) : ∃ a, x = .ok a ∧ f a = .ok b := by
  cases x with
  | error e => simp [Bind.bind, Except.bind] at h
  | ok a => exact ⟨a, rfl, by simpa [Bind.bind, Except.bind] using h⟩

lemma ok_of_map {α β : Type} {g : α → β} {x : Except String α} {b : β}
    (h : x.map g = .ok b) : ∃ a, x = .ok a ∧ g a = b := by
  cases x with
  | error e => simp [Except.map] at h
  | ok a => exact ⟨a, rfl, by simpa [Except.map] using h⟩

lemma validate_map_loop_strips
    {recur : ProtoFile → ScopeEntry → Jval → String → String →
      Except String (List VErr × Jval)}
    (hrec : RecurStrips recur) (pf : ProtoFile) (ptype path : String) :
    ∀ (entries : List (String × Jval)) t,
      validate_map_loop recur pf ptype path entries = .ok t →
      StripsFields entries t.2.2 := by
  intro entries
  induction entries with
  | nil =>
    intro t h
    simp only [validate_map_loop] at h
    cases h
    exact .nil
  | cons kv rest ih =>
    intro t h
    obtain ⟨k, v⟩ := kv
    unfold validate_map_loop at h
    split at h
    · cases h
    · split at h
      · obtain ⟨t', ht', hok⟩ := ok_of_bind h
        cases hok
        exact .keep (.refl v) (ih t' ht')
      · split at h
        · cases h
        · split at h
          · cases h
          · split at h
            · cases h
            · obtain ⟨r, hr, h2⟩ := ok_of_bind h
              obtain ⟨t', ht', hok⟩ := ok_of_bind h2
              cases hok
              exact .keep (hrec _ _ _ _ _ _ hr) (ih t' ht')

lemma validate_map_type_strips
    {recur : ProtoFile → ScopeEntry → Jval → String → String →
      Except String (List VErr × Jval)}
    (hrec : RecurStrips recur) (pf : ProtoFile) (ptype : String) (v : Jval)
    (path : String) (t : List VErr × List Msg × Jval)
    (h : validate_map_type recur pf ptype v path = .ok t) :
    Strips v t.2.2 := by
  unfold validate_map_type at h
  split at h
  · rename_i entries
    obtain ⟨t', ht', hok⟩ := ok_of_map h
    subst hok
    exact .obj (validate_map_loop_strips hrec pf ptype path entries t' ht')
  · cases h
    exact .refl v

lemma validate_multiply_strips
    {recur : ProtoFile → ScopeEntry → Jval → String → String →
      Except String (List VErr × Jval)}
    (hrec : RecurStrips recur) (pf : ProtoFile) (se : ScopeEntry)
    (path nm : String) :
    ∀ (xs : List Jval) t,
      validate_multiply_structures recur pf se path nm xs = .ok t →
      StripsList xs t.2 := by
  intro xs
  induction xs with
  | nil =>
    intro t h
    simp only [validate_multiply_structures] at h
    cases h
    exact .nil
  | cons x rest ih =>
    intro t h
    unfold validate_multiply_structures at h
    obtain ⟨r, hr, h2⟩ := ok_of_bind h
    obtain ⟨t', ht', hok⟩ := ok_of_bind h2
    cases hok
    exact .cons (hrec _ _ _ _ _ _ hr) (ih t' ht')

lemma arr_of_isArr {v : Jval} (h : v.isArr = true) : ∃ xs, v = .arr xs := by
  cases v <;> simp [Jval.isArr] at h
  exact ⟨_, rfl⟩

lemma strips_isArr {a b : Jval} (h : Strips a b) : b.isArr = a.isArr := by
  cases h <;> rfl

lemma validate_field_strips
    {recur : ProtoFile → ScopeEntry → Jval → String → String →
      Except String (List VErr × Jval)}
    (hrec : RecurStrips recur) (pf : ProtoFile) (sc : Scope) (path k : String)
    (f : MessageField) (v : Jval) (r : List VErr × Jval)
    (h : validate_field recur pf sc path k f v = .ok r) : Strips v r.2 := by
  unfold validate_field at h
  split at h
  · cases h; exact .refl v
  split at h
  · split at h <;> (cases h; exact .refl v)
  split at h
  · obtain ⟨t, ht, hok⟩ := ok_of_map h
    subst hok
    exact validate_map_type_strips hrec pf f.type v _ t ht
  rename_i hnotrep _ _
  split at h
  · split at h
    · split at h <;> (cases h; exact .refl v)
    · split at h
      · rename_i hrep
        obtain ⟨t, ht, hok⟩ := ok_of_map h
        subst hok
        have hArr : v.isArr = true := by
          cases hA : v.isArr
          · rw [hrep, hA] at hnotrep; simp at hnotrep
          · rfl
        obtain ⟨xs, rfl⟩ := arr_of_isArr hArr
        exact .arr (validate_multiply_strips hrec _ _ _ _ xs t
          (by simpa [Jval.elems] using ht))
      · exact hrec _ _ _ _ _ _ h
  · split at h
    · split at h
      · cases h
      · split at h
        · cases h
        · split at h
          · cases h
          · split at h
            · rename_i hrep
              obtain ⟨t, ht, hok⟩ := ok_of_map h
              subst hok
              have hArr : v.isArr = true := by
                cases hA : v.isArr
                · rw [hrep, hA] at hnotrep; simp at hnotrep
                · rfl
              obtain ⟨xs, rfl⟩ := arr_of_isArr hArr
              exact .arr (validate_multiply_strips hrec _ _ _ _ xs t
                (by simpa [Jval.elems] using ht))
            · exact hrec _ _ _ _ _ _ h
    · cases h; exact .refl v

lemma validate_fields_strips
    {recur : ProtoFile → ScopeEntry → Jval → String → String →
      Except String (List VErr × Jval)}
    (hrec : RecurStrips recur) (pf : ProtoFile) (sc : Scope) (path : String) :
    ∀ (entries : List (String × Jval)) r,
      validate_fields recur pf sc path entries = .ok r →
      StripsFields entries r.2 := by
  intro entries
  induction entries with
  | nil =>
    intro r h
    simp only [validate_fields] at h
    cases h
    exact .nil
  | cons kv rest ih =>
    intro r h
    obtain ⟨k, v⟩ := kv
    unfold validate_fields at h
    split at h
    · cases h
    · rename_i f hf
      obtain ⟨r1, hr1, h2⟩ := ok_of_bind h
      obtain ⟨t, ht, hok⟩ := ok_of_bind h2
      cases hok
      exact .keep (validate_field_strips hrec pf sc path k f v r1 hr1) (ih t ht)

lemma validate_structure_strips :
    ∀ (fuel : Nat) (pf : ProtoFile) (se : ScopeEntry) (data : Jval)
      (path name : String) (r : List VErr × Jval),
      validate_structure fuel pf se data path name = .ok r →
      Strips data r.2 := by
  intro fuel
  induction fuel with
  | zero =>
    intro pf se data path name r h
    simp [validate_structure] at h
  | succ n ih =>
    intro pf se data path name r h
    have hrec : RecurStrips (validate_structure n) := by
      intro pf' se' v' p' nm' r' h'
      exact ih pf' se' v' p' nm' r' h'
    unfold validate_structure at h
    cases data with
    | obj entries =>
      cases se with
      | enum e => cases h
      | msg s =>
        simp only [] at h
        obtain ⟨r1, hr1, hok⟩ := ok_of_bind h
        cases hok
        refine Strips.obj ?_
        exact strips_fields_of_filter _ entries
          (validate_fields_strips hrec pf s path _ r1 hr1)
    | str s => cases h; exact .refl _
    | int m => cases h; exact .refl _
    | float q => cases h; exact .refl _
    | bool b => cases h; exact .refl _
    | arr xs => cases h; exact .refl _
    | null => cases h; exact .refl _

/-- Per-entry value transformation of the claim's restriction at a
map-typed field: a scalar value type keeps the entry's value verbatim; a
message value type, resolved through the import tables exactly as the
validator resolves it, is restricted recursively. `rrec` is the next
recursion level of `restrict_to_declared`. -/
def restrict_map_entry (rrec : ProtoFile → ScopeEntry → Jval → Jval)
    (pf : ProtoFile) (ptype : String) (v : Jval) : Jval :=
  match map_value_type ptype with
  | none => v
  | some mvt =>
    if is_base_type mvt then v
    else
      match split_once mvt '.' with
      | none => v
      | some pm =>
        match pf.imports.lookup pm.1 with
        | none => v
        | some p =>
          match p.struct.lookup pm.2 with
          | none => v
          | some se' => rrec p se' v

/-- The claim's restriction at a map-typed field's value: map keys are
free-form (never excess), so every entry is kept under its own key and only
its value is transformed; a non-structure value is kept verbatim. -/
def restrict_map (rrec : ProtoFile → ScopeEntry → Jval → Jval)
    (pf : ProtoFile) (ptype : String) (v : Jval) : Jval :=
  match v with
  | .obj entries =>
    .obj (entries.map (fun kv => (kv.1, restrict_map_entry rrec pf ptype kv.2)))
  | _ => v

/-- The claim's restriction at one kept (schema-declared) field: recursion
happens exactly at the positions the schema declares as nested structures —
local or imported message fields (single or element-wise when repeated) and
map values — while scalar, enum, fallback and shape-mismatch positions keep
the value verbatim. The field type is resolved exactly as the validator
resolves it. -/
def restrict_field (rrec : ProtoFile → ScopeEntry → Jval → Jval)
    (pf : ProtoFile) (sc : Scope) (f : MessageField) (v : Jval) : Jval :=
  if f.is_repeated && !v.isArr then v
  else if f.is_base_type then v
  else if f.is_map then restrict_map rrec pf f.type v
  else
    match scoped_lookup pf sc f.type with
    | some entry =>
      match entry with
      | .enum _ => v
      | .msg s' =>
        if f.is_repeated then .arr (v.elems.map (rrec pf (.msg s')))
        else rrec pf (.msg s') v
    | none =>
      if has_in_imports pf f.type then
        match split_once f.type '.' with
        | none => v
        | some pm =>
          match pf.imports.lookup pm.1 with
          | none => v
          | some p =>
            match p.struct.lookup pm.2 with
            | none => v
            | some se' =>
              if f.is_repeated then .arr (v.elems.map (rrec p se'))
              else rrec p se' v
      else v

/-- The claim's restriction over the entries kept at one structure level:
every entry keeps its key and its value is transformed per its field
descriptor. -/
def restrict_fields (rrec : ProtoFile → ScopeEntry → Jval → Jval)
    (pf : ProtoFile) (sc : Scope) :
    List (String × Jval) → List (String × Jval)
  | [] => []
  | (k, v) :: rest =>
    match sc.fields.lookup k with
    | none => (k, v) :: restrict_fields rrec pf sc rest
    | some f => (k, restrict_field rrec pf sc f v) :: restrict_fields rrec pf sc rest

/-- The claim's "input restricted to schema-declared field names", written
as a pure document transformation: at every structure governed by a message
scope, an object entry is dropped exactly when its key is not a declared
field name of that scope (the entry survives iff `s.fields.lookup` on its
key succeeds), every kept entry keeps its key, and the restriction recurses
only at the positions the schema declares as nested structures;
non-structure values and scalar/enum positions are kept verbatim. -/
def restrict_to_declared : Nat → ProtoFile → ScopeEntry → Jval → Jval
  | 0, _, _, v => v
  | n + 1, pf, se, v =>
    match v with
    | .obj entries =>
      match se with
      | .enum _ => v
      | .msg s =>
        .obj (restrict_fields (restrict_to_declared n) pf s
          (entries.filter (fun kv => (s.fields.lookup kv.1).isSome)))
    | _ => v

/-- The recursion level computes exactly the schema restriction of its
document argument. -/
def RecurRestrict
    (recur : ProtoFile → ScopeEntry → Jval → String → String →
      Except String (List VErr × Jval))
    (rrec : ProtoFile → ScopeEntry → Jval → Jval) : Prop :=
  ∀ pf se v p nm r, recur pf se v p nm = .ok r → r.2 = rrec pf se v

lemma validate_map_loop_restrict
    {recur : ProtoFile → ScopeEntry → Jval → String → String →
      Except String (List VErr × Jval)}
    {rrec : ProtoFile → ScopeEntry → Jval → Jval}
    (hrec : RecurRestrict recur rrec) (pf : ProtoFile) (ptype path : String) :
    ∀ (entries : List (String × Jval)) t,
      validate_map_loop recur pf ptype path entries = .ok t →
      t.2.2 = entries.map (fun kv => (kv.1, restrict_map_entry rrec pf ptype kv.2)) := by
  intro entries
  induction entries with
  | nil =>
    intro t h
    simp only [validate_map_loop] at h
    cases h
    rfl
  | cons kv rest ih =>
    intro t h
    obtain ⟨k, v⟩ := kv
    unfold validate_map_loop at h
    split at h
    · cases h
    · rename_i mvt hmvt
      split at h
      · rename_i hbase
        obtain ⟨t', ht', hok⟩ := ok_of_bind h
        cases hok
        simp only [List.map_cons]
        rw [ih t' ht']
        simp [restrict_map_entry, hmvt, hbase]
      · rename_i hbase
        split at h
        · cases h
        · rename_i pm hsp
          split at h
          · cases h
          · rename_i p hpk
            split at h
            · cases h
            · rename_i se' hms
              obtain ⟨r1, hr1, h2⟩ := ok_of_bind h
              obtain ⟨t', ht', hok⟩ := ok_of_bind h2
              cases hok
              simp only [List.map_cons]
              rw [ih t' ht', hrec _ _ _ _ _ _ hr1]
              simp [restrict_map_entry, hmvt, hbase, hsp, hpk, hms]

lemma validate_map_type_restrict
    {recur : ProtoFile → ScopeEntry → Jval → String → String →
      Except String (List VErr × Jval)}
    {rrec : ProtoFile → ScopeEntry → Jval → Jval}
    (hrec : RecurRestrict recur rrec) (pf : ProtoFile) (ptype : String)
    (v : Jval) (path : String) (t : List VErr × List Msg × Jval)
    (h : validate_map_type recur pf ptype v path = .ok t) :
    t.2.2 = restrict_map rrec pf ptype v := by
  cases v
  case obj entries =>
    unfold validate_map_type at h
    simp only [] at h
    obtain ⟨t', ht', hok⟩ := ok_of_map h
    subst hok
    simp only [restrict_map]
    rw [validate_map_loop_restrict hrec pf ptype path entries t' ht']
  all_goals
    (unfold validate_map_type at h
     cases h
     rfl)

lemma validate_multiply_restrict
    {recur : ProtoFile → ScopeEntry → Jval → String → String →
      Except String (List VErr × Jval)}
    {rrec : ProtoFile → ScopeEntry → Jval → Jval}
    (hrec : RecurRestrict recur rrec) (pf : ProtoFile) (se : ScopeEntry)
    (path nm : String) :
    ∀ (xs : List Jval) t,
      validate_multiply_structures recur pf se path nm xs = .ok t →
      t.2 = xs.map (rrec pf se) := by
  intro xs
  induction xs with
  | nil =>
    intro t h
    simp only [validate_multiply_structures] at h
    cases h
    rfl
  | cons x rest ih =>
    intro t h
    unfold validate_multiply_structures at h
    obtain ⟨r1, hr1, h2⟩ := ok_of_bind h
    obtain ⟨t', ht', hok⟩ := ok_of_bind h2
    cases hok
    simp only [List.map_cons]
    rw [ih t' ht', hrec _ _ _ _ _ _ hr1]

lemma validate_field_restrict
    {recur : ProtoFile → ScopeEntry → Jval → String → String →
      Except String (List VErr × Jval)}
    {rrec : ProtoFile → ScopeEntry → Jval → Jval}
    (hrec : RecurRestrict recur rrec) (pf : ProtoFile) (sc : Scope)
    (path k : String) (f : MessageField) (v : Jval) (r : List VErr × Jval)
    (h : validate_field recur pf sc path k f v = .ok r) :
    r.2 = restrict_field rrec pf sc f v := by
  unfold validate_field at h
  unfold restrict_field
  split at h
  case isTrue hc =>
    cases h
    rw [if_pos hc]
  case isFalse hc1 =>
    rw [if_neg hc1]
    split at h
    case isTrue hbase =>
      rw [if_pos hbase]
      split at h <;> (cases h; rfl)
    case isFalse hbase =>
      rw [if_neg hbase]
      split at h
      case isTrue hmapb =>
        rw [if_pos hmapb]
        obtain ⟨t, ht, hok⟩ := ok_of_map h
        subst hok
        exact validate_map_type_restrict hrec pf f.type v _ t ht
      case isFalse hmapb =>
        rw [if_neg hmapb]
        split at h
        · rename_i entry hsl
          try simp only []
          split at h
          · rename_i e
            try simp only []
            split at h <;> (cases h; rfl)
          · rename_i s'
            try simp only []
            split at h
            case isTrue hrep =>
              rw [if_pos hrep]
              obtain ⟨t, ht, hok⟩ := ok_of_map h
              subst hok
              rw [validate_multiply_restrict hrec pf (.msg s')
                (path ++ " > " ++ k) f.type v.elems t ht]
            case isFalse hrep =>
              rw [if_neg hrep]
              exact hrec _ _ _ _ _ _ h
        · rename_i hsl
          try simp only []
          split at h
          case isTrue himp =>
            rw [if_pos himp]
            split at h
            · cases h
            · rename_i pm hsp
              try simp only []
              split at h
              · cases h
              · rename_i p hpk
                try simp only []
                split at h
                · cases h
                · rename_i se' hms
                  try simp only []
                  split at h
                  case isTrue hrep =>
                    rw [if_pos hrep]
                    obtain ⟨t, ht, hok⟩ := ok_of_map h
                    subst hok
                    rw [validate_multiply_restrict hrec p se'
                      (path ++ " > " ++ k) f.type v.elems t ht]
                  case isFalse hrep =>
                    rw [if_neg hrep]
                    exact hrec _ _ _ _ _ _ h
          case isFalse himp =>
            rw [if_neg himp]
            cases h
            rfl

lemma validate_fields_restrict
    {recur : ProtoFile → ScopeEntry → Jval → String → String →
      Except String (List VErr × Jval)}
    {rrec : ProtoFile → ScopeEntry → Jval → Jval}
    (hrec : RecurRestrict recur rrec) (pf : ProtoFile) (sc : Scope)
    (path : String) :
    ∀ (entries : List (String × Jval)) r,
      validate_fields recur pf sc path entries = .ok r →
      r.2 = restrict_fields rrec pf sc entries := by
  intro entries
  induction entries with
  | nil =>
    intro r h
    simp only [validate_fields] at h
    cases h
    rfl
  | cons kv rest ih =>
    intro r h
    obtain ⟨k, v⟩ := kv
    unfold validate_fields at h
    split at h
    · cases h
    · rename_i f hf
      obtain ⟨r1, hr1, h2⟩ := ok_of_bind h
      obtain ⟨t, ht, hok⟩ := ok_of_bind h2
      cases hok
      simp only [restrict_fields, hf]
      rw [ih t ht, validate_field_restrict hrec pf sc path k f v r1 hr1]

lemma validate_structure_restrict :
    ∀ (fuel : Nat) (pf : ProtoFile) (se : ScopeEntry) (data : Jval)
      (path name : String) (r : List VErr × Jval),
      validate_structure fuel pf se data path name = .ok r →
      r.2 = restrict_to_declared fuel pf se data := by
  intro fuel
  induction fuel with
  | zero =>
    intro pf se data path name r h
    simp [validate_structure] at h
  | succ n ih =>
    intro pf se data path name r h
    have hrec : RecurRestrict (validate_structure n) (restrict_to_declared n) := by
      intro pf' se' v' p' nm' r' h'
      exact ih pf' se' v' p' nm' r' h'
    unfold validate_structure at h
    cases data with
    | obj entries =>
      cases se with
      | enum e => cases h
      | msg s =>
        simp only [] at h
        obtain ⟨r1, hr1, hok⟩ := ok_of_bind h
        cases hok
        simp only [restrict_to_declared]
        rw [validate_fields_restrict hrec pf s path _ r1 hr1]
        rfl
    | str s => cases h; rfl
    | int m => cases h; rfl
    | float q => cases h; rfl
    | bool b => cases h; rfl
    | arr xs => cases h; rfl
    | null => cases h; rfl

/-- C9: validation's only mutation of the document, at every nesting level,
is deletion of excess (schema-undeclared) keys: whenever `validate_structure`
returns, the returned document (a) is obtained from the input without adding
a key, changing a kept value, or altering an array's length, and (b) equals
the input restricted to schema-declared field names — the pure restriction
`restrict_to_declared`, which drops an object entry exactly when its key is
not declared in the governing message scope. -/
theorem c9_validation_only_strips (fuel : Nat) (pf : ProtoFile)
    (se : ScopeEntry) (data : Jval) (path name : String)
    (r : List VErr × Jval)
    (h : validate_structure fuel pf se data path name = .ok r) :
    Strips data r.2 ∧ r.2 = restrict_to_declared fuel pf se data :=
  ⟨validate_structure_strips fuel pf se data path name r h,
   validate_structure_restrict fuel pf se data path name r h⟩

/-- C9 witness: validating the scenario document with the excess field
`extra` strips exactly that key, and the output is the schema restriction
of the input. -/
theorem c9_validation_only_strips_witness :
    Strips
      (.obj [("name", .str "String"), ("tags", .arr [.int 50]), ("extra", .bool true)])
      (.obj [("name", .str "String"), ("tags", .arr [.int 50])]) ∧
    (Jval.obj [("name", .str "String"), ("tags", .arr [.int 50])]) =
      restrict_to_declared 2 pf_c4
        (.msg (.mk [("name", ⟨"string", false, true⟩), ("tags", ⟨"int32", true, false⟩)] []))
        (.obj [("name", .str "String"), ("tags", .arr [.int 50]), ("extra", .bool true)]) :=
  c9_validation_only_strips 2 pf_c4
    (.msg (.mk [("name", ⟨"string", false, true⟩), ("tags", ⟨"int32", true, false⟩)] []))
    (.obj [("name", .str "String"), ("tags", .arr [.int 50]), ("extra", .bool true)])
    "M" "M"
    ([("M", .excess "extra")],
     .obj [("name", .str "String"), ("tags", .arr [.int 50])]) rfl

/- ## C7: excess-field stripping is idempotent -/

def Msg.is_excess : Msg → Bool
  | .excess _ => true
  | _ => false

def is_excess_err (e : VErr) : Bool := e.2.is_excess

lemma base_assoc_check_not_excess (t : String) (v : Jval) :
    ∀ (l : List (List String × List String)) m,
      base_assoc_check t v l = some m → m.is_excess = false := by
  intro l
  induction l with
  | nil => intro m h; simp [base_assoc_check] at h
  | cons a rest ih =>
    intro m h
    obtain ⟨pts, pys⟩ := a
    unfold base_assoc_check at h
    split at h
    · cases h; rfl
    · exact ih m h

lemma validate_base_type_not_excess (t : String) (v : Jval) (m : Msg)
    (h : validate_base_type t v = some m) : m.is_excess = false :=
  base_assoc_check_not_excess t v base_assoc m h

lemma validate_enum_type_not_excess (e : EnumField) (v : Jval) (m : Msg)
    (h : validate_enum_type e v = some m) : m.is_excess = false := by
  unfold validate_enum_type at h
  split at h
  · cases h
  · cases h; rfl

lemma validate_required_not_excess (fields : List (String × MessageField))
    (entries : List (String × Jval)) :
    ∀ m ∈ validate_required fields entries, m.is_excess = false := by
  intro m hm
  unfold validate_required at hm
  rw [List.mem_filterMap] at hm
  obtain ⟨kf, _, hkf⟩ := hm
  split at hkf
  · cases hkf; rfl
  · cases hkf

lemma add_errors_filter_excess (p : String) (l : List (Option Msg))
    (h : ∀ m, some m ∈ l → m.is_excess = false) :
    (add_errors p l).filter is_excess_err = [] := by
  rw [List.filter_eq_nil]
  intro e he
  unfold add_errors at he
  rw [List.mem_filterMap] at he
  obtain ⟨o, ho, hmap⟩ := he
  cases o with
  | none => simp at hmap
  | some m =>
    simp only [Option.map_some'] at hmap
    cases hmap
    simp only [is_excess_err]
    rw [h m ho]
    simp

lemma filter_excess_append (a b : List VErr) :
    (a ++ b).filter is_excess_err = a.filter is_excess_err ++ b.filter is_excess_err :=
  List.filter_append a b

lemma filter_excess_nil_of_msgs (p : String) (l : List Msg)
    (h : ∀ m ∈ l, m.is_excess = false) :
    (l.map (fun m => (p, m))).filter is_excess_err = [] := by
  rw [List.filter_eq_nil]
  intro e he
  rw [List.mem_map] at he
  obtain ⟨m, hm, hmap⟩ := he
  cases hmap
  simp only [is_excess_err]
  rw [h m hm]
  simp

lemma del_excess_noop (fields : List (String × MessageField))
    (entries : List (String × Jval))
    (h : ∀ kv ∈ entries, (fields.lookup kv.1).isSome) :
    validate_and_del_excess fields entries = ([], entries) := by
  unfold validate_and_del_excess
  refine Prod.ext ?_ ?_
  · simp only []
    rw [List.filterMap_eq_nil]
    intro kv hkv
    rw [h kv hkv]
    simp
  · simp only []
    rw [List.filter_eq_self]
    intro kv hkv
    rw [h kv hkv]

lemma validate_fields_keys
    (recur : ProtoFile → ScopeEntry → Jval → String → String →
      Except String (List VErr × Jval))
    (pf : ProtoFile) (sc : Scope) (path : String) :
    ∀ (entries : List (String × Jval)) r,
      validate_fields recur pf sc path entries = .ok r →
      r.2.map Prod.fst = entries.map Prod.fst := by
  intro entries
  induction entries with
  | nil =>
    intro r h
    simp only [validate_fields] at h
    cases h
    rfl
  | cons kv rest ih =>
    intro r h
    obtain ⟨k, v⟩ := kv
    unfold validate_fields at h
    split at h
    · cases h
    · obtain ⟨r1, hr1, h2⟩ := ok_of_bind h
      obtain ⟨t, ht, hok⟩ := ok_of_bind h2
      cases hok
      simp [ih t ht]

/-- The recursion level is idempotent on its document argument: a second
run on the stripped document returns it unchanged with no excess-field
discrepancies. -/
def RecurIdem
    (recur : ProtoFile → ScopeEntry → Jval → String → String →
      Except String (List VErr × Jval)) : Prop :=
  ∀ pf se v p nm r, recur pf se v p nm = .ok r →
    ∃ es2, recur pf se r.2 p nm = .ok (es2, r.2) ∧
      es2.filter is_excess_err = []

lemma validate_map_loop_idem
    {recur : ProtoFile → ScopeEntry → Jval → String → String →
      Except String (List VErr × Jval)}
    (hrec : RecurIdem recur) (pf : ProtoFile) (ptype path : String) :
    ∀ (entries : List (String × Jval)) t,
      validate_map_loop recur pf ptype path entries = .ok t →
      ∃ t2, validate_map_loop recur pf ptype path t.2.2 = .ok t2 ∧
        t2.2.2 = t.2.2 ∧ t2.1.filter is_excess_err = [] ∧
        ∀ m ∈ t2.2.1, m.is_excess = false := by
  intro entries
  induction entries with
  | nil =>
    intro t h
    simp only [validate_map_loop] at h
    cases h
    exact ⟨([], [], []), rfl, rfl, rfl, by intro m hm; simp at hm⟩
  | cons kv rest ih =>
    intro t h
    obtain ⟨k, v⟩ := kv
    unfold validate_map_loop at h
    split at h
    · cases h
    · rename_i mvt hmvt
      split at h
      · rename_i hbase
        obtain ⟨t', ht', hok⟩ := ok_of_bind h
        cases hok
        obtain ⟨t2', h2', heq', hex', hown'⟩ := ih t' ht'
        refine ⟨(t2'.1, (match validate_base_type mvt v with
            | some _ => [Msg.wrong_map_value k mvt ptype (type_name v) v]
            | none => []) ++ t2'.2.1, (k, v) :: t2'.2.2), ?_, ?_, ?_, ?_⟩
        · unfold validate_map_loop
          simp only [hmvt, hbase, eq_self_iff_true, if_true, Bind.bind, Except.bind, h2']
        · simp [heq']
        · exact hex'
        · intro m hm
          rw [List.mem_append] at hm
          cases hm with
          | inl hm' =>
            split at hm'
            · simp at hm'; subst hm'; rfl
            · simp at hm'
          | inr hm' => exact hown' m hm'
      · rename_i hbase
        split at h
        · cases h
        · rename_i pm pkg msg hsp
          split at h
          · cases h
          · rename_i p hpk
            split at h
            · cases h
            · rename_i se' hms
              obtain ⟨r1, hr1, h2⟩ := ok_of_bind h
              obtain ⟨t', ht', hok⟩ := ok_of_bind h2
              cases hok
              obtain ⟨es2, hes2, hex2⟩ := hrec _ _ _ _ _ _ hr1
              obtain ⟨t2', h2', heq', hex', hown'⟩ := ih t' ht'
              refine ⟨(es2 ++ t2'.1, t2'.2.1, (k, r1.2) :: t2'.2.2), ?_, ?_, ?_, ?_⟩
              · unfold validate_map_loop
                simp only [hmvt, hbase, Bool.false_eq_true, if_false, hsp, hpk, hms,
                  Bind.bind, Except.bind, hes2, h2']
              · simp [heq']
              · rw [filter_excess_append, hex2, hex']
                rfl
              · exact hown'

lemma validate_map_type_idem
    {recur : ProtoFile → ScopeEntry → Jval → String → String →
      Except String (List VErr × Jval)}
    (hrec : RecurIdem recur) (pf : ProtoFile) (ptype : String) (v : Jval)
    (path : String) (t : List VErr × List Msg × Jval)
    (h : validate_map_type recur pf ptype v path = .ok t) :
    ∃ t2, validate_map_type recur pf ptype t.2.2 path = .ok t2 ∧
      t2.2.2 = t.2.2 ∧ t2.1.filter is_excess_err = [] ∧
      ∀ m ∈ t2.2.1, m.is_excess = false := by
  cases v
  case obj entries =>
    unfold validate_map_type at h
    simp only [] at h
    obtain ⟨t', ht', hok⟩ := ok_of_map h
    subst hok
    obtain ⟨t2, h2, heq, hex, hown⟩ :=
      validate_map_loop_idem hrec pf ptype path entries t' ht'
    refine ⟨(t2.1, t2.2.1, .obj t2.2.2), ?_, by simp [heq], hex, hown⟩
    unfold validate_map_type
    simp only []
    rw [h2]
    rfl
  all_goals
    (unfold validate_map_type at h
     cases h
     exact ⟨_, rfl, rfl, rfl, by intro m hm; simp at hm; subst hm; rfl⟩)

lemma validate_multiply_idem
    {recur : ProtoFile → ScopeEntry → Jval → String → String →
      Except String (List VErr × Jval)}
    (hrec : RecurIdem recur) (pf : ProtoFile) (se : ScopeEntry)
    (path nm : String) :
    ∀ (xs : List Jval) t,
      validate_multiply_structures recur pf se path nm xs = .ok t →
      ∃ t2, validate_multiply_structures recur pf se path nm t.2 = .ok t2 ∧
        t2.2 = t.2 ∧ t2.1.filter is_excess_err = [] := by
  intro xs
  induction xs with
  | nil =>
    intro t h
    simp only [validate_multiply_structures] at h
    cases h
    exact ⟨([], []), rfl, rfl, rfl⟩
  | cons x rest ih =>
    intro t h
    unfold validate_multiply_structures at h
    obtain ⟨r1, hr1, h2⟩ := ok_of_bind h
    obtain ⟨t', ht', hok⟩ := ok_of_bind h2
    cases hok
    obtain ⟨es2, hes2, hex2⟩ := hrec _ _ _ _ _ _ hr1
    obtain ⟨t2', h2', heq', hex'⟩ := ih t' ht'
    refine ⟨(es2 ++ t2'.1, r1.2 :: t2'.2), ?_, by simp [heq'], ?_⟩
    · unfold validate_multiply_structures
      simp only [Bind.bind, Except.bind, hes2, h2']
    · rw [filter_excess_append, hex2, hex']
      rfl

lemma multiply_base_not_excess (t : String) (vs : List Jval) :
    ∀ m, some m ∈ validate_multiply_base_types t vs → m.is_excess = false := by
  intro m hm
  unfold validate_multiply_base_types at hm
  rw [List.mem_map] at hm
  obtain ⟨v', _, hv'⟩ := hm
  exact validate_base_type_not_excess t v' m hv'

lemma enum_map_not_excess (e : EnumField) (vs : List Jval) :
    ∀ m, some m ∈ vs.map (validate_enum_type e) → m.is_excess = false := by
  intro m hm
  rw [List.mem_map] at hm
  obtain ⟨v', _, hv'⟩ := hm
  exact validate_enum_type_not_excess e v' m hv'

lemma bool_eq_false_of_ne_true {b : Bool} (h : ¬b = true) : b = false := by
  cases b
  · rfl
  · exact absurd rfl h

lemma validate_field_idem
    {recur : ProtoFile → ScopeEntry → Jval → String → String →
      Except String (List VErr × Jval)}
    (hrec : RecurIdem recur) (hrecS : RecurStrips recur)
    (pf : ProtoFile) (sc : Scope) (path k : String)
    (f : MessageField) (v : Jval) (r : List VErr × Jval)
    (h : validate_field recur pf sc path k f v = .ok r) :
    ∃ es2, validate_field recur pf sc path k f r.2 = .ok (es2, r.2) ∧
      es2.filter is_excess_err = [] := by
  unfold validate_field at h ⊢
  split at h
  case isTrue hc =>
    cases h
    refine ⟨[(path ++ " > " ++ k, .expected_array f.type (type_name v))], ?_, rfl⟩
    dsimp only
    rw [if_pos hc]
  case isFalse hc1 =>
    split at h
    case isTrue hbase =>
      split at h
      case isTrue hrep =>
        cases h
        refine ⟨add_errors (path ++ " > " ++ k)
          (validate_multiply_base_types f.type v.elems), ?_, ?_⟩
        · dsimp only
          rw [if_neg hc1, if_pos hbase, if_pos hrep]
        · exact add_errors_filter_excess _ _ (multiply_base_not_excess f.type v.elems)
      case isFalse hrep =>
        cases h
        refine ⟨add_errors (path ++ " > " ++ k) [validate_base_type f.type v], ?_, ?_⟩
        · dsimp only
          rw [if_neg hc1, if_pos hbase, if_neg hrep]
        · refine add_errors_filter_excess _ _ ?_
          intro m hm
          simp only [List.mem_singleton] at hm
          exact validate_base_type_not_excess f.type v m hm.symm
    case isFalse hbase =>
      split at h
      case isTrue hmapb =>
        obtain ⟨t, ht, hok⟩ := ok_of_map h
        subst hok
        obtain ⟨t2, h2, heq, hex, hown⟩ := validate_map_type_idem hrec pf f.type v _ t ht
        have hpres : (t.2.2).isArr = v.isArr :=
          strips_isArr (validate_map_type_strips hrecS pf f.type v _ t ht)
        refine ⟨t2.1 ++ t2.2.1.map (fun m => (path ++ " > " ++ k, m)), ?_, ?_⟩
        · dsimp only
          rw [if_neg (by rw [hpres]; exact hc1), if_neg hbase, if_pos hmapb, h2]
          simp only [Except.map]
          rw [heq]
        · rw [filter_excess_append, hex, filter_excess_nil_of_msgs _ _ hown]
          rfl
      case isFalse hmapb =>
        split at h
        · rename_i entry hsl
          split at h
          · rename_i e
            split at h
            case isTrue hrep =>
              cases h
              refine ⟨add_errors (path ++ " > " ++ k)
                (v.elems.map (validate_enum_type e)), ?_, ?_⟩
              · dsimp only
                rw [if_neg hc1, if_neg hbase, if_neg hmapb]
                try simp only []
                rw [if_pos hrep]
              · exact add_errors_filter_excess _ _ (enum_map_not_excess e v.elems)
            case isFalse hrep =>
              cases h
              refine ⟨add_errors (path ++ " > " ++ k) [validate_enum_type e v], ?_, ?_⟩
              · dsimp only
                rw [if_neg hc1, if_neg hbase, if_neg hmapb]
                try simp only []
                rw [if_neg hrep]
              · refine add_errors_filter_excess _ _ ?_
                intro m hm
                simp only [List.mem_singleton] at hm
                exact validate_enum_type_not_excess e v m hm.symm
          · rename_i s'
            split at h
            case isTrue hrep =>
              obtain ⟨t, ht, hok⟩ := ok_of_map h
              subst hok
              obtain ⟨t2, h2, heq, hex⟩ := validate_multiply_idem hrec pf (.msg s')
                (path ++ " > " ++ k) f.type v.elems t ht
              refine ⟨t2.1, ?_, hex⟩
              dsimp only
              rw [if_neg (by simp [Jval.isArr]), if_neg hbase, if_neg hmapb]
              try simp only []
              rw [if_pos hrep]
              have helems : (Jval.arr t.2).elems = t.2 := rfl
              rw [helems, h2]
              simp only [Except.map]
              rw [heq]
            case isFalse hrep =>
              obtain ⟨es2, hes2, hex⟩ := hrec _ _ _ _ _ _ h
              refine ⟨es2, ?_, hex⟩
              dsimp only
              have hrf : f.is_repeated = false := bool_eq_false_of_ne_true hrep
              rw [if_neg (by simp [hrf]), if_neg hbase, if_neg hmapb]
              try simp only []
              rw [if_neg hrep]
              exact hes2
        · rename_i hsl
          split at h
          case isTrue himp =>
            split at h
            · cases h
            · rename_i pm hsp
              split at h
              · cases h
              · rename_i p hpk
                split at h
                · cases h
                · rename_i se' hms
                  split at h
                  case isTrue hrep =>
                    obtain ⟨t, ht, hok⟩ := ok_of_map h
                    subst hok
                    obtain ⟨t2, h2, heq, hex⟩ := validate_multiply_idem hrec p se'
                      (path ++ " > " ++ k) f.type v.elems t ht
                    refine ⟨t2.1, ?_, hex⟩
                    dsimp only
                    rw [if_neg (by simp [Jval.isArr]), if_neg hbase, if_neg hmapb]
                    try simp only []
                    rw [if_pos himp]
                    try simp only [hsp, hpk, hms]
                    rw [if_pos hrep]
                    have helems : (Jval.arr t.2).elems = t.2 := rfl
                    rw [helems, h2]
                    simp only [Except.map]
                    rw [heq]
                  case isFalse hrep =>
                    obtain ⟨es2, hes2, hex⟩ := hrec _ _ _ _ _ _ h
                    refine ⟨es2, ?_, hex⟩
                    dsimp only
                    have hrf : f.is_repeated = false := bool_eq_false_of_ne_true hrep
                    rw [if_neg (by simp [hrf]), if_neg hbase, if_neg hmapb]
                    try simp only []
                    rw [if_pos himp]
                    try simp only [hsp, hpk, hms]
                    rw [if_neg hrep]
                    exact hes2
          case isFalse himp =>
            cases h
            refine ⟨[], ?_, rfl⟩
            dsimp only
            rw [if_neg hc1, if_neg hbase, if_neg hmapb]
            try simp only []
            rw [if_neg himp]

lemma validate_fields_idem
    {recur : ProtoFile → ScopeEntry → Jval → String → String →
      Except String (List VErr × Jval)}
    (hrec : RecurIdem recur) (hrecS : RecurStrips recur)
    (pf : ProtoFile) (sc : Scope) (path : String) :
    ∀ (entries : List (String × Jval)) r,
      validate_fields recur pf sc path entries = .ok r →
      ∃ es2, validate_fields recur pf sc path r.2 = .ok (es2, r.2) ∧
        es2.filter is_excess_err = [] := by
  intro entries
  induction entries with
  | nil =>
    intro r h
    simp only [validate_fields] at h
    cases h
    exact ⟨[], rfl, rfl⟩
  | cons kv rest ih =>
    intro r h
    obtain ⟨k, v⟩ := kv
    unfold validate_fields at h
    split at h
    · cases h
    · rename_i f hf
      obtain ⟨r1, hr1, h2⟩ := ok_of_bind h
      obtain ⟨t, ht, hok⟩ := ok_of_bind h2
      cases hok
      obtain ⟨es2, hes2, hex2⟩ := validate_field_idem hrec hrecS pf sc path k f v r1 hr1
      obtain ⟨es3, hes3, hex3⟩ := ih t ht
      refine ⟨es2 ++ es3, ?_, ?_⟩
      · unfold validate_fields
        simp only [hf, Bind.bind, Except.bind, hes2, hes3]
      · rw [filter_excess_append, hex2, hex3]
        rfl

lemma validate_structure_idem :
    ∀ (fuel : Nat) (pf : ProtoFile) (se : ScopeEntry) (data : Jval)
      (path name : String) (r : List VErr × Jval),
      validate_structure fuel pf se data path name = .ok r →
      ∃ es2, validate_structure fuel pf se r.2 path name = .ok (es2, r.2) ∧
        es2.filter is_excess_err = [] := by
  intro fuel
  induction fuel with
  | zero =>
    intro pf se data path name r h
    simp [validate_structure] at h
  | succ n ih =>
    intro pf se data path name r h
    have hrecI : RecurIdem (validate_structure n) :=
      fun pf' se' v' p' nm' r' h' => ih pf' se' v' p' nm' r' h'
    have hrecS : RecurStrips (validate_structure n) :=
      fun pf' se' v' p' nm' r' h' => validate_structure_strips n pf' se' v' p' nm' r' h'
    unfold validate_structure at h ⊢
    cases data with
    | obj entries =>
      cases se with
      | enum e => cases h
      | msg s =>
        simp only [] at h
        obtain ⟨r1, hr1, hok⟩ := ok_of_bind h
        cases hok
        have hkeys : ∀ kv ∈ r1.2, (s.fields.lookup kv.1).isSome := by
          intro kv hkv
          have hk := validate_fields_keys (validate_structure n) pf s path _ r1 hr1
          have h1 : kv.1 ∈ (validate_and_del_excess s.fields entries).2.map Prod.fst := by
            rw [← hk]
            exact List.mem_map_of_mem Prod.fst hkv
          rw [List.mem_map] at h1
          obtain ⟨kv', hkv', hfst⟩ := h1
          have h2 := del_excess_keys s.fields entries kv' hkv'
          rw [hfst] at h2
          exact h2
        obtain ⟨es2, hes2, hex2⟩ := validate_fields_idem hrecI hrecS pf s path _ r1 hr1
        refine ⟨(validate_required s.fields r1.2).map (fun m => (path, m)) ++ es2, ?_, ?_⟩
        · dsimp only
          rw [del_excess_noop s.fields r1.2 hkeys]
          simp only [Bind.bind, Except.bind, hes2]
          simp
        · rw [filter_excess_append,
            filter_excess_nil_of_msgs _ _ (validate_required_not_excess s.fields r1.2), hex2]
          rfl
    | str s0 => cases h; exact ⟨_, rfl, rfl⟩
    | int n0 => cases h; exact ⟨_, rfl, rfl⟩
    | float q0 => cases h; exact ⟨_, rfl, rfl⟩
    | bool b0 => cases h; exact ⟨_, rfl, rfl⟩
    | arr xs => cases h; exact ⟨_, rfl, rfl⟩
    | null => cases h; exact ⟨_, rfl, rfl⟩

/-- C7: excess-field stripping is idempotent: whenever `validate_structure`
returns an error list and a stripped document, validating the stripped
document again against the same scope succeeds, reports no excess-field
discrepancy, and returns the document unaltered. -/
theorem c7_excess_stripping_idempotent (fuel : Nat) (pf : ProtoFile)
    (se : ScopeEntry) (data : Jval) (path name : String)
    (r : List VErr × Jval)
    (h : validate_structure fuel pf se data path name = .ok r) :
    ∃ es2, validate_structure fuel pf se r.2 path name = .ok (es2, r.2) ∧
      es2.filter is_excess_err = [] :=
  validate_structure_idem fuel pf se data path name r h

/-- C7 witness: the scenario document with the excess field `extra` is
stripped once; revalidating the stripped document gives no excess errors
and leaves it unchanged. -/
theorem c7_excess_stripping_idempotent_witness :
    ∃ es2, validate_structure 2 pf_c4
        (.msg (.mk [("name", ⟨"string", false, true⟩), ("tags", ⟨"int32", true, false⟩)] []))
        (.obj [("name", .str "String"), ("tags", .arr [.int 50])]) "M" "M" =
      .ok (es2, .obj [("name", .str "String"), ("tags", .arr [.int 50])]) ∧
      es2.filter is_excess_err = [] :=
  c7_excess_stripping_idempotent 2 pf_c4
    (.msg (.mk [("name", ⟨"string", false, true⟩), ("tags", ⟨"int32", true, false⟩)] []))
    (.obj [("name", .str "String"), ("tags", .arr [.int 50]), ("extra", .bool true)])
    "M" "M"
    ([("M", .excess "extra")], .obj [("name", .str "String"), ("tags", .arr [.int 50])])
    rfl

/- ## C1: the generator's output validates cleanly -/

/-- Key uniqueness of an ordered dict, as produced by the parser. -/
def nodup_keys {α : Type} : List (String × α) → Bool
  | [] => true
  | (k, _) :: rest => (rest.lookup k).isNone && nodup_keys rest

/-- The generator's loop unrolled without the accumulator (used only in
proofs; `get_object_loop_eq` checks it against the executable loop). -/
def gen_entries
    (recur : ProtoFile → Scope → Except String (List (String × Jval)))
    (pf : ProtoFile) (sc : Scope) :
    List (String × MessageField) → Except String (List (String × Jval))
  | [] => .ok []
  | (k, f) :: rest => do
    let v ← gen_field recur pf sc f
    let t ← gen_entries recur pf sc rest
    .ok ((k, v) :: t)

lemma od_insert_append {α : Type} (k : String) (v : α) :
    ∀ (acc : List (String × α)), (acc.lookup k).isNone →
      od_insert acc k v = acc ++ [(k, v)] := by
  intro acc
  induction acc with
  | nil => intro _; rfl
  | cons kv rest ih =>
    intro h
    obtain ⟨k', v'⟩ := kv
    unfold od_insert
    cases hkk : k' == k with
    | true =>
      exfalso
      have : k' = k := eq_of_beq hkk
      subst this
      simp [List.lookup] at h
    | false =>
      rw [if_neg (by simp)]
      have h' : (rest.lookup k).isNone := by
        simp only [List.lookup] at h
        cases hk2 : k == k' with
        | true =>
          exfalso
          have : k = k' := eq_of_beq hk2
          subst this
          simp at hkk
        | false => rw [hk2] at h; exact h
      rw [ih h']
      rfl

lemma lookup_append_left {α : Type} (k : String) :
    ∀ (l1 l2 : List (String × α)), (l1.lookup k).isNone →
      (l1 ++ l2).lookup k = l2.lookup k := by
  intro l1
  induction l1 with
  | nil => intro l2 _; rfl
  | cons kv rest ih =>
    intro l2 h
    obtain ⟨k', v'⟩ := kv
    simp only [List.cons_append, List.lookup]
    simp only [List.lookup] at h
    cases hk : k == k' with
    | true => rw [hk] at h; simp at h
    | false => rw [hk] at h; exact ih l2 h

lemma lookup_isSome_of_mem_keys {α : Type} (k : String) :
    ∀ (l : List (String × α)), k ∈ l.map Prod.fst → (l.lookup k).isSome := by
  intro l
  induction l with
  | nil => intro h; simp at h
  | cons kv rest ih =>
    intro h
    obtain ⟨k', v'⟩ := kv
    simp only [List.map_cons, List.mem_cons] at h
    simp only [List.lookup]
    cases hk : k == k' with
    | true => simp
    | false =>
      cases h with
      | inl h' => exfalso; subst h'; simp at hk
      | inr h' => exact ih h'

lemma lookup_self_of_nodup {α : Type} :
    ∀ (l : List (String × α)), nodup_keys l = true →
      ∀ kv ∈ l, l.lookup kv.1 = some kv.2 := by
  intro l
  induction l with
  | nil => intro _ kv h; simp at h
  | cons kv0 rest ih =>
    intro hnd kv h
    obtain ⟨k0, v0⟩ := kv0
    simp only [nodup_keys, Bool.and_eq_true] at hnd
    cases h with
    | head =>
      show List.lookup k0 ((k0, v0) :: rest) = some v0
      simp [List.lookup]
    | tail _ h' =>
      simp only [List.lookup]
      cases hk : kv.1 == k0 with
      | true =>
        exfalso
        have : kv.1 = k0 := eq_of_beq hk
        have hmem : kv.1 ∈ rest.map Prod.fst := List.mem_map_of_mem Prod.fst h'
        rw [this] at hmem
        have := lookup_isSome_of_mem_keys k0 rest hmem
        rw [Option.isNone_iff_eq_none] at hnd
        rw [hnd.1] at this
        simp at this
      | false => exact ih hnd.2 kv h'

lemma mem_str_eq_mem (t : String) :
    ∀ (l : List String), mem_str t l = true ↔ t ∈ l := by
  intro l
  induction l with
  | nil => simp [mem_str]
  | cons x rest ih =>
    simp only [mem_str, Bool.or_eq_true, List.mem_cons, ih]
    constructor
    · intro h
      cases h with
      | inl h' => exact Or.inl (eq_of_beq h').symm
      | inr h' => exact Or.inr h'
    · intro h
      cases h with
      | inl h' => exact Or.inl (by rw [h']; simp)
      | inr h' => exact Or.inr h'

lemma get_object_loop_eq
    (recur : ProtoFile → Scope → Except String (List (String × Jval)))
    (pf : ProtoFile) (sc : Scope) :
    ∀ (l : List (String × MessageField)) (acc : List (String × Jval)),
      nodup_keys l = true →
      (∀ kf ∈ l, (acc.lookup kf.1).isNone) →
      get_object_loop recur pf sc l acc =
        (gen_entries recur pf sc l).map (fun t => acc ++ t) := by
  intro l
  induction l with
  | nil =>
    intro acc _ _
    simp [get_object_loop, gen_entries, Except.map]
  | cons kf rest ih =>
    intro acc hnd hdis
    obtain ⟨k, f⟩ := kf
    unfold get_object_loop gen_entries
    cases hv : gen_field recur pf sc f with
    | error e => simp [Bind.bind, Except.bind, hv, Except.map]
    | ok v =>
      simp only [Bind.bind, Except.bind, hv]
      have hacc : (acc.lookup k).isNone := hdis (k, f) (by simp)
      rw [od_insert_append k v acc hacc]
      simp only [nodup_keys, Bool.and_eq_true] at hnd
      rw [ih (acc ++ [(k, v)]) hnd.2 ?_]
      · cases hrest : gen_entries recur pf sc rest with
        | error e => simp [Except.map]
        | ok t => simp [Except.map]
      · intro kf' hkf'
        have h1 : (acc.lookup kf'.1).isNone := hdis kf' (by simp [hkf'])
        rw [lookup_append_left kf'.1 acc [(k, v)] h1]
        have hne : (kf'.1 == k) = false := by
          cases hkk : kf'.1 == k with
          | true =>
            exfalso
            have heq : kf'.1 = k := eq_of_beq hkk
            have hmem : kf'.1 ∈ rest.map Prod.fst := List.mem_map_of_mem Prod.fst hkf'
            rw [heq] at hmem
            have := lookup_isSome_of_mem_keys k rest hmem
            rw [Option.isNone_iff_eq_none] at hnd
            rw [hnd.1] at this
            simp at this
          | false => rfl
        simp [List.lookup, hne]

lemma scalar_default_props (f : MessageField) (d : Jval)
    (h : get_default_value_for_field f = some d) :
    is_base_type f.type = true ∧ is_map_type f.type = false ∧
      validate_base_type f.type d = none := by
  unfold get_default_value_for_field at h
  split at h
  case isTrue hm =>
    cases h
    rw [mem_str_eq_mem] at hm
    simp only [STRING_TYPES, List.mem_cons, List.not_mem_nil, or_false] at hm
    rcases hm with h1 | h1 <;> rw [h1] <;> exact ⟨rfl, rfl, rfl⟩
  case isFalse =>
  split at h
  case isTrue hm =>
    cases h
    rw [mem_str_eq_mem] at hm
    simp only [INT_TYPES, List.mem_cons, List.not_mem_nil, or_false] at hm
    rcases hm with h1|h1|h1|h1|h1|h1|h1|h1|h1|h1|h1|h1 <;> rw [h1] <;>
      exact ⟨rfl, rfl, rfl⟩
  case isFalse =>
  split at h
  case isTrue hm =>
    cases h
    rw [mem_str_eq_mem] at hm
    simp only [FLOAT_TYPES, List.mem_cons, List.not_mem_nil, or_false] at hm
    rcases hm with h1 | h1 <;> rw [h1] <;> exact ⟨rfl, rfl, rfl⟩
  case isFalse =>
  split at h
  case isTrue hm =>
    cases h
    rw [mem_str_eq_mem] at hm
    simp only [BOOL_TYPES, List.mem_cons, List.not_mem_nil, or_false] at hm
    rcases hm with h1 | h1 <;> rw [h1] <;> exact ⟨rfl, rfl, rfl⟩
  case isFalse => cases h

lemma lookups_agree (pf : ProtoFile) (sc : Scope) (t : String)
    (h : ¬((sc.nested.lookup t).isSome = true ∧ (pf.struct.lookup t).isSome = true)) :
    scoped_lookup pf sc t = local_lookup sc pf t := by
  unfold scoped_lookup local_lookup
  cases hn : sc.nested.lookup t with
  | none =>
    cases ht : pf.struct.lookup t with
    | none => rfl
    | some e => rfl
  | some e =>
    cases ht : pf.struct.lookup t with
    | none => rfl
    | some e' => exact absurd ⟨by rw [hn]; rfl, by rw [ht]; rfl⟩ h

/-- One field resolves identically and successfully in both consumers:
scalar default, imported message with a clean target scope, or a local
enum (with at least one value) or message declared in exactly one of the
nested scope and the top level.  `recClean` is the next recursion level. -/
def field_clean (recClean : ProtoFile → Scope → Bool) (pf : ProtoFile)
    (sc : Scope) (f : MessageField) : Bool :=
  if (get_default_value_for_field f).isSome then true
  else if is_base_type f.type || is_map_type f.type then false
  else if has_in_imports pf f.type then
    (sc.nested.lookup f.type).isNone && (pf.struct.lookup f.type).isNone &&
    (match split_once f.type '.' with
     | none => false
     | some pm =>
       match pf.imports.lookup pm.1 with
       | none => false
       | some p =>
         match p.struct.lookup pm.2 with
         | some entry =>
           match entry with
           | .msg s' => recClean p s'
           | .enum _ => false
         | none => false)
  else
    !((sc.nested.lookup f.type).isSome && (pf.struct.lookup f.type).isSome) &&
    (match local_lookup sc pf f.type with
     | some entry =>
       match entry with
       | .enum e => !e.values.isEmpty
       | .msg s' => recClean pf s'
     | none => false)

/-- All fields of a scope resolve cleanly down to the given depth. -/
def scope_clean : Nat → ProtoFile → Scope → Bool
  | 0, _, _ => false
  | n + 1, pf, sc =>
    nodup_keys sc.fields &&
    sc.fields.all (fun kf => field_clean (scope_clean n) pf sc kf.2)

lemma enum_first_value_valid (e : EnumField) (v1 : String) (vs : List String)
    (h : e.values = v1 :: vs) : validate_enum_type e (.str v1) = none := by
  unfold validate_enum_type enum_has
  rw [h]
  simp [mem_str]

lemma field_roundtrip (n : Nat)
    (IH : ∀ pf s, scope_clean n pf s = true →
      ∃ entries, get_object n pf s = .ok entries ∧
        entries.map Prod.fst = s.fields.map Prod.fst ∧
        ∀ path name, validate_structure n pf (.msg s) (.obj entries) path name =
          .ok ([], .obj entries))
    (pf : ProtoFile) (sc : Scope) (f : MessageField)
    (hc : field_clean (scope_clean n) pf sc f = true) :
    ∃ v, gen_field (get_object n) pf sc f = .ok v ∧
      ∀ path k, validate_field (validate_structure n) pf sc path k f v =
        .ok ([], v) := by
  unfold field_clean at hc
  split at hc
  case isTrue hdef =>
    rw [Option.isSome_iff_exists] at hdef
    obtain ⟨d, hd⟩ := hdef
    obtain ⟨hb, hm, hvb⟩ := scalar_default_props f d hd
    have hb' : f.is_base_type = true := hb
    cases hrep : f.is_repeated with
    | true =>
      refine ⟨.arr [d], ?_, ?_⟩
      · unfold gen_field gen_field_value
        simp only [hd, Bind.bind, Except.bind, hrep, if_true]
      · intro path k
        unfold validate_field
        rw [if_neg (by simp [hrep, Jval.isArr]), if_pos hb', if_pos hrep]
        simp [validate_multiply_base_types, add_errors, hvb, Jval.elems]
    | false =>
      refine ⟨d, ?_, ?_⟩
      · unfold gen_field gen_field_value
        simp [hd, hrep, Bind.bind, Except.bind]
      · intro path k
        unfold validate_field
        rw [if_neg (by simp [hrep]), if_pos hb', if_neg (by simp [hrep])]
        simp [add_errors, hvb]
  case isFalse hdef =>
  have hnone : get_default_value_for_field f = none := by
    cases hgd : get_default_value_for_field f with
    | none => rfl
    | some d => rw [hgd] at hdef; simp at hdef
  split at hc
  case isTrue => exact absurd hc (by simp)
  case isFalse hbm =>
  have hbase : f.is_base_type = false := by
    show base_type_of f.type = false
    unfold base_type_of
    cases hx : is_base_type f.type with
    | false => rfl
    | true => rw [hx] at hbm; simp at hbm
  have hmapb : f.is_map = false := by
    show is_map_type f.type = false
    cases hx : is_map_type f.type with
    | false => rfl
    | true => rw [hx] at hbm; simp at hbm
  split at hc
  case isTrue himp =>
    simp only [Bool.and_eq_true] at hc
    obtain ⟨⟨hn, ht⟩, hchain⟩ := hc
    rw [Option.isNone_iff_eq_none] at hn ht
    have hsl : scoped_lookup pf sc f.type = none := by
      unfold scoped_lookup
      rw [ht, hn]
    split at hchain
    · exact absurd hchain (by simp)
    · rename_i pm hsp
      split at hchain
      · exact absurd hchain (by simp)
      · rename_i p hpk
        split at hchain
        · rename_i entry hms
          split at hchain
          · rename_i s'
            obtain ⟨entries', hgen', hkeys', hval'⟩ := IH p s' hchain
            cases hrep : f.is_repeated with
            | true =>
              refine ⟨.arr [.obj entries'], ?_, ?_⟩
              · unfold gen_field gen_field_value
                simp only [hnone, himp, if_true, hsp, hpk, hms, hgen', Except.map,
                  Bind.bind, Except.bind, hrep]
                try rfl
              · intro path k
                unfold validate_field
                rw [if_neg (by simp [hrep, Jval.isArr]), if_neg (by simp [hbase]),
                  if_neg (by simp [hmapb])]
                simp only [hsl, himp, if_true, hsp, hpk, hms]
                rw [if_pos hrep]
                have helems : (Jval.arr [Jval.obj entries']).elems = [Jval.obj entries'] := rfl
                rw [helems]
                unfold validate_multiply_structures
                simp only [hval' (path ++ " > " ++ k) f.type, Bind.bind, Except.bind,
                  validate_multiply_structures, Except.map]
                rfl
            | false =>
              refine ⟨.obj entries', ?_, ?_⟩
              · unfold gen_field gen_field_value
                simp only [hnone, himp, if_true, hsp, hpk, hms, hgen', Except.map,
                  Bind.bind, Except.bind, hrep]
                try rfl
              · intro path k
                unfold validate_field
                rw [if_neg (by simp [hrep]), if_neg (by simp [hbase]),
                  if_neg (by simp [hmapb])]
                simp only [hsl, himp, if_true, hsp, hpk, hms]
                rw [if_neg (by simp [hrep])]
                exact hval' (path ++ " > " ++ k) f.type
          · exact absurd hchain (by simp)
        · exact absurd hchain (by simp)
  case isFalse himp =>
    simp only [Bool.and_eq_true] at hc
    obtain ⟨hshadow, hloc⟩ := hc
    have hagree : scoped_lookup pf sc f.type = local_lookup sc pf f.type := by
      refine lookups_agree pf sc f.type ?_
      intro hcontra
      rw [hcontra.1, hcontra.2] at hshadow
      simp at hshadow
    have himp' : has_in_imports pf f.type = false := by
      cases hx : has_in_imports pf f.type with
      | false => rfl
      | true => rw [hx] at himp; simp at himp
    split at hloc
    · rename_i entry hll
      split at hloc
      · rename_i e
        cases hev : e.values with
        | nil => rw [hev] at hloc; simp at hloc
        | cons v1 vs =>
          have hdv : get_default_value_for_enum e f = .str v1 := by
            unfold get_default_value_for_enum
            rw [hev]
          have hve := enum_first_value_valid e v1 vs hev
          cases hrep : f.is_repeated with
          | true =>
            refine ⟨.arr [.str v1], ?_, ?_⟩
            · unfold gen_field gen_field_value
              simp only [hnone, himp', Bool.false_eq_true, if_false, hll, hdv,
                Bind.bind, Except.bind, hrep, if_true]
              try rfl
            · intro path k
              unfold validate_field
              rw [if_neg (by simp [hrep, Jval.isArr]), if_neg (by simp [hbase]),
                if_neg (by simp [hmapb])]
              simp only [hagree, hll]
              rw [if_pos hrep]
              have helems : (Jval.arr [Jval.str v1]).elems = [Jval.str v1] := rfl
              rw [helems]
              simp [add_errors, hve]
          | false =>
            refine ⟨.str v1, ?_, ?_⟩
            · unfold gen_field gen_field_value
              simp only [hnone, himp', Bool.false_eq_true, if_false, hll, hdv,
                Bind.bind, Except.bind, hrep]
              try rfl
            · intro path k
              unfold validate_field
              rw [if_neg (by simp [hrep]), if_neg (by simp [hbase]),
                if_neg (by simp [hmapb])]
              simp only [hagree, hll]
              rw [if_neg (by simp [hrep])]
              simp [add_errors, hve]
      · rename_i s'
        obtain ⟨entries', hgen', hkeys', hval'⟩ := IH pf s' hloc
        cases hrep : f.is_repeated with
        | true =>
          refine ⟨.arr [.obj entries'], ?_, ?_⟩
          · unfold gen_field gen_field_value
            simp only [hnone, himp', Bool.false_eq_true, if_false, hll, hgen',
              Except.map, Bind.bind, Except.bind, hrep, if_true]
            try rfl
          · intro path k
            unfold validate_field
            rw [if_neg (by simp [hrep, Jval.isArr]), if_neg (by simp [hbase]),
              if_neg (by simp [hmapb])]
            simp only [hagree, hll]
            rw [if_pos hrep]
            have helems : (Jval.arr [Jval.obj entries']).elems = [Jval.obj entries'] := rfl
            rw [helems]
            unfold validate_multiply_structures
            simp only [hval' (path ++ " > " ++ k) f.type, Bind.bind, Except.bind,
              validate_multiply_structures, Except.map]
            rfl
        | false =>
          refine ⟨.obj entries', ?_, ?_⟩
          · unfold gen_field gen_field_value
            simp only [hnone, himp', Bool.false_eq_true, if_false, hll, hgen',
              Except.map, Bind.bind, Except.bind, hrep]
            try rfl
          · intro path k
            unfold validate_field
            rw [if_neg (by simp [hrep]), if_neg (by simp [hbase]),
              if_neg (by simp [hmapb])]
            simp only [hagree, hll]
            rw [if_neg (by simp [hrep])]
            exact hval' (path ++ " > " ++ k) f.type
    · exact absurd hloc (by simp)

lemma gen_val_loop (n : Nat) (pf : ProtoFile) (sc : Scope) :
    ∀ (l : List (String × MessageField)),
      (∀ kv ∈ l, sc.fields.lookup kv.1 = some kv.2) →
      (∀ kv ∈ l, ∃ v, gen_field (get_object n) pf sc kv.2 = .ok v ∧
        ∀ path k, validate_field (validate_structure n) pf sc path k kv.2 v =
          .ok ([], v)) →
      ∃ entries, gen_entries (get_object n) pf sc l = .ok entries ∧
        entries.map Prod.fst = l.map Prod.fst ∧
        ∀ path, validate_fields (validate_structure n) pf sc path entries =
          .ok ([], entries) := by
  intro l
  induction l with
  | nil =>
    intro _ _
    exact ⟨[], rfl, rfl, fun path => rfl⟩
  | cons kv rest ih =>
    intro hsub hfld
    obtain ⟨k, f⟩ := kv
    obtain ⟨v, hv, hval⟩ := hfld (k, f) (by simp)
    obtain ⟨entries', hgen', hkeys', hval'⟩ :=
      ih (fun kv h => hsub kv (by simp [h])) (fun kv h => hfld kv (by simp [h]))
    refine ⟨(k, v) :: entries', ?_, ?_, ?_⟩
    · unfold gen_entries
      simp only [hv, Bind.bind, Except.bind, hgen']
    · simp [hkeys']
    · intro path
      unfold validate_fields
      have hlk : sc.fields.lookup k = some f := hsub (k, f) (by simp)
      simp only [hlk, hval path k, Bind.bind, Except.bind, hval' path]
      rfl

lemma clean_roundtrip :
    ∀ (n : Nat) (pf : ProtoFile) (s : Scope), scope_clean n pf s = true →
      ∃ entries, get_object n pf s = .ok entries ∧
        entries.map Prod.fst = s.fields.map Prod.fst ∧
        ∀ path name, validate_structure n pf (.msg s) (.obj entries) path name =
          .ok ([], .obj entries) := by
  intro n
  induction n with
  | zero => intro pf s h; simp [scope_clean] at h
  | succ n ih =>
    intro pf sc h
    unfold scope_clean at h
    simp only [Bool.and_eq_true] at h
    obtain ⟨hnd, hall⟩ := h
    rw [List.all_eq_true] at hall
    have hsub := lookup_self_of_nodup sc.fields hnd
    have hfld : ∀ kv ∈ sc.fields,
        ∃ v, gen_field (get_object n) pf sc kv.2 = .ok v ∧
          ∀ path k, validate_field (validate_structure n) pf sc path k kv.2 v =
            .ok ([], v) := by
      intro kv hkv
      refine field_roundtrip n ih pf sc kv.2 ?_
      have := hall kv hkv
      simpa using this
    obtain ⟨entries, hgen, hkeys, hvalf⟩ := gen_val_loop n pf sc sc.fields hsub hfld
    refine ⟨entries, ?_, hkeys, ?_⟩
    · show get_object (n + 1) pf sc = .ok entries
      unfold get_object
      rw [get_object_loop_eq (get_object n) pf sc sc.fields [] hnd
        (by intro kf _; rfl)]
      rw [hgen]
      simp [Except.map]
    · intro path name
      show validate_structure (n + 1) pf (.msg sc) (.obj entries) path name = _
      have hkeys2 : ∀ kv ∈ entries, (sc.fields.lookup kv.1).isSome := by
        intro kv hkv
        refine lookup_isSome_of_mem_keys kv.1 sc.fields ?_
        rw [← hkeys]
        exact List.mem_map_of_mem Prod.fst hkv
      have hreq : validate_required sc.fields entries = [] := by
        unfold validate_required
        rw [List.filterMap_eq_nil]
        intro kf hkf
        have hk : (entries.lookup kf.1).isSome := by
          refine lookup_isSome_of_mem_keys kf.1 entries ?_
          rw [hkeys]
          exact List.mem_map_of_mem Prod.fst hkf
        cases hx : entries.lookup kf.1 with
        | none => rw [hx] at hk; simp at hk
        | some _ => simp [hx]
      unfold validate_structure
      dsimp only
      rw [del_excess_noop sc.fields entries hkeys2]
      dsimp only
      rw [hreq]
      simp only [Bind.bind, Except.bind, hvalf path]
      rfl

/-- C1 amended: for a root message scope all of whose reachable fields
resolve cleanly (scalar, nonempty local enum, unshadowed local message, or
imported message — see `field_clean`), the Example Generator succeeds and
its document passes the Validator with an empty error list and a false
has-errors flag.  Beyond the defensive-fallback branch, the exemption must
also cover enums with no declared values (whose generated placeholder
fails enum membership) and names declared both in the current scope and at
the top level (which the two consumers resolve to different targets). -/
theorem c1_generator_output_validates (fuel : Nat) (pf : ProtoFile)
    (root : String) (s : Scope)
    (hroot : pf.struct.lookup root = some (.msg s))
    (hclean : scope_clean fuel pf s = true) :
    ∃ doc, as_object fuel pf root = .ok doc ∧
      validate_json fuel pf root doc = .ok (false, [], doc) := by
  obtain ⟨entries, hgen, _, hval⟩ := clean_roundtrip fuel pf s hclean
  refine ⟨.obj entries, ?_, ?_⟩
  · unfold as_object
    simp only [hroot]
    rw [hgen]
    rfl
  · unfold validate_json
    simp only [hroot]
    rw [hval root root]
    rfl

/-- A clean example schema: a required string, a repeated int32 and an
enum field with one declared value. -/
def sc_w : Scope :=
  .mk [("name", ⟨"string", false, true⟩), ("tags", ⟨"int32", true, false⟩),
       ("c", ⟨"Color", false, false⟩)] []

def pf_w : ProtoFile :=
  .mk [("M", .msg sc_w), ("Color", .enum ⟨"Color", ["RED"]⟩)] []

/-- C1 witness: the clean example schema round-trips with no errors. -/
theorem c1_generator_output_validates_witness :
    ∃ doc, as_object 1 pf_w "M" = .ok doc ∧
      validate_json 1 pf_w "M" doc = .ok (false, [], doc) :=
  c1_generator_output_validates 1 pf_w "M" sc_w rfl rfl

/-- The generator's branch structure for one field, recording whether the
defensive-fallback branch (`result[field_name] = \x7b\x7d`) is avoided;
`recNF` is the next recursion level. -/
def field_no_fallback (recNF : ProtoFile → Scope → Bool) (pf : ProtoFile)
    (sc : Scope) (f : MessageField) : Bool :=
  if (get_default_value_for_field f).isSome then true
  else if has_in_imports pf f.type then
    match split_once f.type '.' with
    | none => true
    | some pm =>
      match pf.imports.lookup pm.1 with
      | none => true
      | some p =>
        match p.struct.lookup pm.2 with
        | some entry =>
          match entry with
          | .msg s' => recNF p s'
          | .enum _ => true
        | none => true
  else
    match local_lookup sc pf f.type with
    | some entry =>
      match entry with
      | .msg s' => recNF pf s'
      | .enum _ => true
    | none => false

/-- No field reachable from the scope takes the generator's
defensive-fallback branch, down to the given depth. -/
def no_fallback : Nat → ProtoFile → Scope → Bool
  | 0, _, _ => true
  | n + 1, pf, sc =>
    sc.fields.all (fun kf => field_no_fallback (no_fallback n) pf sc kf.2)

/-- The scope of root `M` in the C1 counterexample model: the nested
message `X` shadows a top-level `X`, and `E` is an empty enum. -/
def sc_c1 : Scope :=
  .mk [("e", ⟨"E", false, false⟩), ("x", ⟨"X", false, false⟩)]
      [("X", .msg (.mk [("a", ⟨"string", false, true⟩)] []))]

def pf_c1 : ProtoFile :=
  .mk [("M", .msg sc_c1), ("E", .enum ⟨"E", []⟩),
       ("X", .msg (.mk [("b", ⟨"int32", false, true⟩)] []))] []

/-- C1 counterexample: for this model generation succeeds without ever
taking the defensive-fallback branch, yet validating the generated
document against the same root yields a true has-errors flag and three
discrepancies: the empty enum's placeholder fails membership, and the
shadowed name `x` is generated from the nested `X` but validated against
the top-level `X`. -/
theorem c1_counterexample :
    no_fallback 3 pf_c1 sc_c1 = true ∧
    as_object 3 pf_c1 "M" =
      .ok (.obj [("e", .str "Optional enum"), ("x", .obj [("a", .str "String")])]) ∧
    validate_json 3 pf_c1 "M"
        (.obj [("e", .str "Optional enum"), ("x", .obj [("a", .str "String")])]) =
      .ok (true,
        [("M > e", .unknown_enum (.str "Optional enum") "E"),
         ("M > x", .excess "a"),
         ("M > x", .required_missing "b" "int32")],
        .obj [("e", .str "Optional enum"), ("x", .obj [])]) :=
  ⟨rfl, rfl, rfl⟩

/- ## proto_manager.py: the line parser (C5) -/

/-- Regex `(?P<key>\w+) = \d+;` under `re.match` (anchored at the start,
trailing text allowed): an enum-value line. -/
def match_enum_value (l : String) : Option String :=
  let (w, r) := take_word l.data
  if w.isEmpty then none
  else
    match r with
    | ' ' :: '=' :: ' ' :: r2 =>
      let (d, r3) := take_digits r2
      if d.isEmpty then none
      else
        match r3 with
        | ';' :: _ => some (String.mk w)
        | _ => none
    | _ => none

/-- The suffix ` (?P<name>\w+) = (?P<index>\d+);` of the field regex,
applied after a candidate split point. -/
def tail_field_match (cs : List Char) : Option (List Char) :=
  let (w, r) := take_word cs
  if w.isEmpty then none
  else
    match r with
    | ' ' :: '=' :: ' ' :: r2 =>
      let (d, r3) := take_digits r2
      if d.isEmpty then none
      else
        match r3 with
        | ';' :: _ => some w
        | _ => none
    | _ => none

/-- Greedy `(?P<field_type>.+) ` backtracking: the rightmost space whose
suffix matches `tail_field_match`; returns (field type, name). -/
def field_split : List Char → Option (List Char × List Char)
  | [] => none
  | c :: rest =>
    match field_split rest with
    | some (ft, nm) => some (c :: ft, nm)
    | none =>
      if c == ' ' then
        match tail_field_match rest with
        | some nm => some ([], nm)
        | none => none
      else none

/-- Regex `(repeated )?(?P<field_type>.+) (?P<name>\w+) = (?P<index>\d+);`
under `re.match`; the optional `(// required)?` group and any trailing
text never affect the match. -/
def match_field_line (l : String) : Option (String × String) :=
  let inner : List Char → Option (String × String) := fun cs =>
    match field_split cs with
    | some (ft, nm) => if ft.isEmpty then none else some (String.mk ft, String.mk nm)
    | none => none
  match drop_pre l.data "repeated ".data with
  | some rest =>
    match inner rest with
    | some r => some r
    | none => inner l.data
  | none => inner l.data

/-- Regex `message (?P<name>\w+) {` (or `enum ...`): header name capture. -/
def match_block_header (pre l : String) : Option String :=
  match drop_pre l.data pre.data with
  | none => none
  | some rest =>
    let (w, r) := take_word rest
    if w.isEmpty then none
    else
      match r with
      | ' ' :: '{' :: _ => some (String.mk w)
      | _ => none

/-- Regex `package (?P<name>\w+);`. -/
def match_package (l : String) : Option String :=
  match drop_pre l.data "package ".data with
  | none => none
  | some rest =>
    let (w, r) := take_word rest
    if w.isEmpty then none
    else
      match r with
      | ';' :: _ => some (String.mk w)
      | _ => none

/-- The prefix before the last occurrence of `m` (greedy `.+` followed by a
literal); `none` when `m` never occurs. -/
def before_last (m : List Char) : List Char → Option (List Char)
  | [] => none
  | c :: rest =>
    match before_last m rest with
    | some p => some (c :: p)
    | none => if (drop_pre (c :: rest) m).isSome then some [] else none

/-- Regex `option go_package = \"(?P<package>.+)\";`. -/
def match_go_package (l : String) : Option String :=
  match drop_pre l.data "option go_package = \"".data with
  | none => none
  | some rest =>
    match before_last ['"', ';'] rest with
    | none => none
    | some p => if p.isEmpty then none else some (String.mk p)

/-- Regex `import \"(?P<field>.+.proto)\";`: the capture must end in
`proto` preceded by at least two characters. -/
def match_import (l : String) : Option String :=
  match drop_pre l.data "import \"".data with
  | none => none
  | some rest =>
    match before_last ['p', 'r', 'o', 't', 'o', '"', ';'] rest with
    | none => none
    | some p =>
      if p.length < 2 then none
      else some (String.mk (p ++ ['p', 'r', 'o', 't', 'o']))

/-- The parser's mutable state (`ProtoFile.__init__` attributes); the
under-construction `message_block` tree reuses `ScopeEntry`.  Import
recursion crosses the file-system boundary, so `parse_line` reports the
requested import path instead of descending. -/
structure PState where
  go_package : Option String
  package : Option String
  struct : List (String × ScopeEntry)
  is_oneof_block : Bool
  is_enum_block : Bool
  enum_name : Option String
  message_block : Option (List (String × ScopeEntry))
  message_names_path : List String

/-- `ProtoFile.__get_current_message_block` combined with an update at the
current block: walk the nesting path and modify the scope it ends at. -/
def update_scope_at (f : Scope → Except String Scope) :
    Scope → List String → Except String Scope
  | s, [] => f s
  | s, n :: rest =>
    match s.nested.lookup n with
    | some entry =>
      match entry with
      | .msg s' =>
        (update_scope_at f s' rest).map
          (fun s'' => .mk s.fields (od_insert s.nested n (.msg s'')))
      | .enum _ => .error "TypeError"
    | none => .error "KeyError: structure[name]"

def update_block (blk : List (String × ScopeEntry)) (path : List String)
    (f : Scope → Except String Scope) :
    Except String (List (String × ScopeEntry)) :=
  match path with
  | [] => .error "IndexError"
  | n :: rest =>
    match blk.lookup n with
    | some entry =>
      match entry with
      | .msg s =>
        (update_scope_at f s rest).map (fun s' => od_insert blk n (.msg s'))
      | .enum _ => .error "TypeError"
    | none => .error "KeyError: structure[name]"

/-- `ProtoFile.__add_message`. -/
def add_message (st : PState) (name : String) : Except String PState :=
  match st.message_block with
  | none =>
    .ok { st with
      message_block := some [(name, .msg (.mk [] []))],
      message_names_path := [name] }
  | some blk =>
    (update_block blk st.message_names_path
        (fun s => .ok (.mk s.fields (od_insert s.nested name (.msg (.mk [] [])))))).map
      (fun blk' => { st with
        message_block := some blk',
        message_names_path := st.message_names_path ++ [name] })

/-- `ProtoFile.__add_enum`. -/
def add_enum (st : PState) (name : String) : Except String PState :=
  let st := { st with is_enum_block := true, enum_name := some name }
  match st.message_block with
  | none => .ok { st with struct := od_insert st.struct name (.enum ⟨name, []⟩) }
  | some blk =>
    (update_block blk st.message_names_path
        (fun s => .ok (.mk s.fields (od_insert s.nested name (.enum ⟨name, []⟩))))).map
      (fun blk' => { st with message_block := some blk' })

/-- `ProtoFile.__set_enum_value`. -/
def set_enum_value (st : PState) (v : String) : Except String PState :=
  match st.enum_name with
  | none => .error "KeyError: structure[name]"
  | some en =>
    match st.message_block with
    | none =>
      match st.struct.lookup en with
      | some entry =>
        match entry with
        | .enum e =>
          .ok { st with struct := od_insert st.struct en (.enum ⟨e.name, e.values ++ [v]⟩) }
        | .msg _ => .error "AttributeError"
      | none => .error "KeyError: structure[name]"
    | some blk =>
      (update_block blk st.message_names_path (fun s =>
          match s.nested.lookup en with
          | some entry =>
            match entry with
            | .enum e =>
              .ok (.mk s.fields (od_insert s.nested en (.enum ⟨e.name, e.values ++ [v]⟩)))
            | .msg _ => .error "AttributeError"
          | none => .error "KeyError: structure[name]")).map
        (fun blk' => { st with message_block := some blk' })

/-- `ProtoFile.__add_field`. -/
def add_field (st : PState) (name : String) (fld : MessageField) :
    Except String PState :=
  match st.message_block with
  | none => .ok st
  | some blk =>
    (update_block blk st.message_names_path
        (fun s => .ok (.mk (od_insert s.fields name fld) s.nested))).map
      (fun blk' => { st with message_block := some blk' })

/-- `ProtoFile.__close_block`. -/
def close_block (st : PState) : Except String PState :=
  if st.is_enum_block then
    .ok { st with is_enum_block := false, enum_name := none }
  else if st.is_oneof_block then
    .ok { st with is_oneof_block := false }
  else if st.message_names_path.length > 1 then
    .ok { st with message_names_path := st.message_names_path.dropLast }
  else
    match st.message_names_path with
    | [] => .error "IndexError"
    | root :: _ =>
      match st.message_block with
      | none => .error "TypeError"
      | some blk =>
        match blk.lookup root with
        | none => .error "KeyError: structure[name]"
        | some entry =>
          .ok { st with
            struct := od_insert st.struct root entry,
            message_block := none,
            message_names_path := [] }

/-- `ProtoFile.__parse_line`: one stripped line of schema source; an
unmatched regex (`.groupdict()` on `None`) is AttributeError.  The second
component is the import path requested by an `import` line (the caller
recursively parses it); `none` otherwise. -/
def parse_line (st : PState) (line : String) :
    Except String (PState × Option String) :=
  let l := strip line
  if str_starts l "option go_package " then
    match match_go_package l with
    | none => .error "AttributeError"
    | some p => .ok ({ st with go_package := some p }, none)
  else if str_starts l "package" then
    match match_package l with
    | none => .error "AttributeError"
    | some p => .ok ({ st with package := some p }, none)
  else if str_starts l "import " then
    match match_import l with
    | none => .error "AttributeError"
    | some f => .ok (st, if str_starts f "proto" then some f else none)
  else if str_starts l "message " then
    match match_block_header "message " l with
    | none => .error "AttributeError"
    | some name => (add_message st name).map (fun st' => (st', none))
  else if str_starts l "enum " then
    match match_block_header "enum " l with
    | none => .error "AttributeError"
    | some name => (add_enum st name).map (fun st' => (st', none))
  else if str_starts l "oneof " then
    .ok ({ st with is_oneof_block := true }, none)
  else if str_starts l "\x7d" then
    (close_block st).map (fun st' => (st', none))
  else if str_starts l "//" then
    .ok (st, none)
  else if l == "" then
    .ok (st, none)
  else if st.is_enum_block then
    if str_starts l "reserved" then
      .ok (st, none)
    else
      match match_enum_value l with
      | none => .error "AttributeError"
      | some v => (set_enum_value st v).map (fun st' => (st', none))
  else if st.message_block.isSome then
    match match_field_line l with
    | none => .error "AttributeError"
    | some ftnm =>
      (add_field st ftnm.2
          ⟨ftnm.1, str_starts l "repeated ", str_ends l "// required"⟩).map
        (fun st' => (st', none))
  else
    .ok (st, none)

/- ## C5: unmatched lines inside a block -/

/-- Parser state inside a top-level `enum E` block. -/
def st_c5 : PState :=
  ⟨none, none, [("E", .enum ⟨"E", []⟩)], false, true, some "E", none, []⟩

/-- C5 counterexample: inside an enum block the line `reserved 2;` matches
neither the enum-value pattern nor the field-declaration pattern, yet the
parser skips it and succeeds instead of failing. -/
theorem c5_counterexample :
    match_enum_value (strip "reserved 2;") = none ∧
    match_field_line (strip "reserved 2;") = none ∧
    parse_line st_c5 "reserved 2;" = .ok (st_c5, none) :=
  ⟨rfl, rfl, rfl⟩

/-- C5 amended: an input line that is not handled by the earlier prefix
dispatch (option/package/import/message/enum/oneof/closing brace/comment/
blank), is not a `reserved` line inside an enum block, and matches neither
the enum-value pattern (inside an enum block) nor the field-declaration
pattern (inside a message block), makes parsing fail immediately with the
unhandled-pattern error (the AttributeError raised by `.groupdict()` on a
failed `re.match`; the code defines no SchemaSyntaxError), discarding the
partial state. -/
theorem c5_unmatched_line_fails (st : PState) (line : String)
    (h1 : str_starts (strip line) "option go_package " = false)
    (h2 : str_starts (strip line) "package" = false)
    (h3 : str_starts (strip line) "import " = false)
    (h4 : str_starts (strip line) "message " = false)
    (h5 : str_starts (strip line) "enum " = false)
    (h6 : str_starts (strip line) "oneof " = false)
    (h7 : str_starts (strip line) "\x7d" = false)
    (h8 : str_starts (strip line) "//" = false)
    (h9 : (strip line == "") = false)
    (hEnum : st.is_enum_block = true →
      str_starts (strip line) "reserved" = false ∧
      match_enum_value (strip line) = none)
    (hMsg : st.is_enum_block = false →
      st.message_block.isSome = true ∧ match_field_line (strip line) = none) :
    parse_line st line = .error "AttributeError" := by
  unfold parse_line
  simp only [h1, h2, h3, h4, h5, h6, h7, h8, h9, Bool.false_eq_true, if_false]
  cases hE : st.is_enum_block with
  | true =>
    obtain ⟨hr, hm⟩ := hEnum hE
    simp only [if_true, hr, Bool.false_eq_true, if_false, hm]
  | false =>
    obtain ⟨hb, hm⟩ := hMsg hE
    simp only [Bool.false_eq_true, if_false, hb, if_true, hm]

/-- Parser state inside a top-level `message M` block. -/
def st_c5m : PState :=
  ⟨none, none, [], false, false, none, some [("M", .msg (.mk [] []))], ["M"]⟩

/-- C5 witness: the line `garbage!` inside a message block fails with the
unhandled-pattern error. -/
theorem c5_unmatched_line_fails_witness :
    parse_line st_c5m "garbage!" = .error "AttributeError" :=
  c5_unmatched_line_fails st_c5m "garbage!" rfl rfl rfl rfl rfl rfl rfl rfl rfl
    (fun h => nomatch h) (fun _ => ⟨rfl, rfl⟩)
